import Mathlib

/-!
Verification of the fiware-ambassador-auth decision engine.

This file shallowly embeds the Go sources of the repository:

* `src/unnamed/part_002` — the multi-host router (`NewHandler` and its
  helper methods `matchHost`, `matchNoAuthPath`, `matchBasicAuthPath`,
  `verifyBasicAuth`, `matchBearerAuthPath`);
* `src/token/holder.go` (third variant in the concatenated file, the
  multi-host holder with file loading) — `makeHolder`, `loadFile`,
  `monitor`, the `UnmarshalJSON` validators, and the `Holder` getters;
* `src/router/handler.go` — the variant router with the compiled
  `staticReStr` pattern (claim C10).

Modelling conventions:

* Go regular-expression matching (`regexp.MustCompile(pat).MatchString(s)`)
  is abstracted by an oracle `RMatch : String → String → Bool` applied as
  `m pat s`; the engine only ever consults it through these calls, so every
  control-flow property below holds for an arbitrary oracle.  The handful
  of regexes that are fixed string constants in the source
  (`basicReStr`, `bearerReStr`, `basicUserReStr`, `staticReStr`) are
  instead implemented concretely, following RE2 semantics for those
  particular patterns (anchored `^...$`, `.` not matching a newline,
  `(?i)` restricted to ASCII case folding, which is exact for the ASCII
  subjects used in the witnesses).
* `regexp.Compile` success for configured path patterns is abstracted by
  an oracle `compileOk : String → Bool`; a compiled regex is represented
  by its pattern string.
* Go maps are association lists with overwrite-on-insert.  Every map
  iteration in the source computes an order-independent result (an
  existential over entries), so the list order carried by the model is
  immaterial.
* The `hashicorp/golang-lru` caches (capacity 1024) are modelled as
  unbounded association lists: all theorems below evaluate at most a
  handful of distinct keys starting from the fresh caches that
  `NewHandler` creates, far below the eviction threshold, so the bounded
  and unbounded behaviours coincide on every run considered.
* Go byte strings are `List Nat` (byte values); Lean `String`s are
  converted with the UTF-8 encoder `strBytes`, matching Go `string`
  equality (byte equality).
* A Go runtime fault in the decision path (index out of range) is
  modelled by `Except Unit`: `.error ()` is the fault, `.ok` a normal
  return.
-/

namespace AmbassadorAuth

/-! ## Association lists: the model of Go maps and of the lru caches -/

/-- Lookup in an association list, the model of a Go map read `m[k]`
(and of `lru.Cache.Get`). -/
def alGet? {α : Type} (l : List (String × α)) (k : String) : Option α :=
  (l.find? (fun p => p.1 == k)).map (fun p => p.2)

/-- Go map read with the zero value of the type as default
(`v, _ := cache.Get(key); r, _ := v.(T)` yields `T`'s zero value on a miss). -/
def alGetD {α : Type} (l : List (String × α)) (k : String) (d : α) : α :=
  (alGet? l k).getD d

/-- Key-presence test, the model of `lru.Cache.Contains` and of
`_, ok := m[k]`. -/
def alContains {α : Type} (l : List (String × α)) (k : String) : Bool :=
  (alGet? l k).isSome

/-- Insert/overwrite, the model of a Go map write `m[k] = v` and of
`lru.Cache.Add`: the old binding for `k` (if any) is dropped and the new
one recorded.  The entry order of the model is irrelevant: Go randomizes
map iteration order, and every iteration in the embedded code computes an
order-independent result. -/
def alInsert {α : Type} (l : List (String × α)) (k : String) (v : α) :
    List (String × α) :=
  (k, v) :: l.filter (fun p => p.1 != k)

theorem alGet?_insert_self {α : Type} (l : List (String × α)) (k : String) (v : α) :
    alGet? (alInsert l k v) k = some v := by
  simp [alInsert, alGet?, List.find?]

theorem alGet?_insert_ne {α : Type} (l : List (String × α)) (k k' : String) (v : α)
    (h : k' ≠ k) : alGet? (alInsert l k v) k' = alGet? l k' := by
  have hk : (k == k') = false := by
    simp only [beq_eq_false_iff_ne, ne_eq]
    exact fun hh => h hh.symm
  simp only [alInsert, alGet?, List.find?, hk]
  induction l with
  | nil => simp
  | cons p t ih =>
    by_cases hp : p.1 = k
    · have h1 : (p.1 != k) = false := by simp [hp]
      have h2 : (p.1 == k') = false := by
        simp only [beq_eq_false_iff_ne, ne_eq, hp]
        exact fun hh => h hh.symm
      simp only [List.filter_cons, h1, Bool.false_eq_true, if_false, List.find?, h2]
      exact ih
    · have h1 : (p.1 != k) = true := by simp [hp]
      simp only [List.filter_cons, h1, if_true, List.find?]
      by_cases hq : (p.1 == k') = true
      · simp [hq]
      · simp only [Bool.not_eq_true] at hq
        simp only [hq]
        exact ih

theorem alContains_insert_self {α : Type} (l : List (String × α)) (k : String) (v : α) :
    alContains (alInsert l k v) k = true := by
  unfold alContains
  rw [alGet?_insert_self]
  rfl

theorem alGetD_insert_self {α : Type} (l : List (String × α)) (k : String) (v d : α) :
    alGetD (alInsert l k v) k d = v := by
  unfold alGetD
  rw [alGet?_insert_self]
  rfl

/-! ## The fixed regex constants of `router`

`part_002` (and `handler.go`) fix four patterns as string constants:

    const basicReStr     = `(?i)^basic (.+)$`
    const bearerReStr    = `(?i)^bearer (.+)$`
    const basicUserReStr = `^([^:]+):(.+)$`
    const staticReStr    = `^.*/static/.*$`      (handler.go only)

These are implemented concretely below.  RE2 semantics for these
anchored patterns: `^`/`$` match the start/end of the text, `.` matches
any character except `\n`, a negated class `[^:]` does match `\n`, and
`(?i)` case-folds the literal (restricted here to ASCII folding, exact
for the ASCII subjects of all concrete inputs used in this file). -/

/-- ASCII lower-casing, the fragment of RE2 case folding needed for the
literal prefixes `basic ` and `bearer `. -/
def asciiLower (c : Char) : Char :=
  if 'A' ≤ c ∧ c ≤ 'Z' then Char.ofNat (c.toNat + 32) else c

/-- Strip a (lower-case) literal pattern from the front of a subject,
comparing case-insensitively; returns the remaining subject characters. -/
def stripCI : List Char → List Char → Option (List Char)
  | [], rest => some rest
  | _ :: _, [] => none
  | p :: ps, c :: cs => if asciiLower c = p then stripCI ps cs else none

/-- `(?i)^basic (.+)$` applied with `FindAllStringSubmatch`: `some payload`
is a match with first capture group `payload` (non-empty, newline-free),
`none` is `len(matches) == 0`. -/
def basicHeaderMatch (s : String) : Option String :=
  match stripCI "basic ".data s.data with
  | some rest =>
    if rest.isEmpty || rest.contains '\n' then none else some (String.mk rest)
  | none => none

/-- `(?i)^bearer (.+)$` applied with `FindAllStringSubmatch`: `some token`
is a match with first capture group `token` (non-empty, newline-free). -/
def bearerHeaderMatch (s : String) : Option String :=
  match stripCI "bearer ".data s.data with
  | some rest =>
    if rest.isEmpty || rest.contains '\n' then none else some (String.mk rest)
  | none => none

/-- Does the second character list start with the first one? -/
def startsWithSeg : List Char → List Char → Bool
  | [], _ => true
  | _ :: _, [] => false
  | a :: as, b :: bs => a == b && startsWithSeg as bs

/-- Substring search on character lists. -/
def containsSeg (needle : List Char) : List Char → Bool
  | [] => needle.isEmpty
  | c :: rest => startsWithSeg needle (c :: rest) || containsSeg needle rest

/-- `^.*/static/.*$` (`staticReStr` of `handler.go`): the anchored pattern
matches exactly when the subject contains the substring `/static/` and no
newline (each `.*` must cover the rest of the text and `.` cannot match
`\n`). -/
def staticMatch (s : String) : Bool :=
  containsSeg "/static/".data s.data && !(s.data.contains '\n')

/-! ## Go byte strings, UTF-8 and `base64.StdEncoding.DecodeString`

`verifyBasicAuth` decodes the base64 payload to a Go byte string and runs
`basicUserReStr` over it; username/password comparison is Go string
equality, i.e. byte equality.  Byte strings are `List Nat`. -/

/-- UTF-8 encoding of one character (the bytes Go stores for it). -/
def charUTF8 (c : Char) : List Nat :=
  let n := c.toNat
  if n < 0x80 then [n]
  else if n < 0x800 then [0xC0 + n / 64, 0x80 + n % 64]
  else if n < 0x10000 then
    [0xE0 + n / 4096, 0x80 + (n / 64) % 64, 0x80 + n % 64]
  else
    [0xF0 + n / 262144, 0x80 + (n / 4096) % 64, 0x80 + (n / 64) % 64, 0x80 + n % 64]

/-- The byte string of a Lean string, as Go sees it. -/
def strBytes (s : String) : List Nat :=
  s.data.flatMap charUTF8

/-- Value of one character of the standard base64 alphabet. -/
def b64Val (c : Char) : Option Nat :=
  if 'A' ≤ c ∧ c ≤ 'Z' then some (c.toNat - 65)
  else if 'a' ≤ c ∧ c ≤ 'z' then some (c.toNat - 97 + 26)
  else if '0' ≤ c ∧ c ≤ '9' then some (c.toNat - 48 + 52)
  else if c = '+' then some 62
  else if c = '/' then some 63
  else none

/-- Decode base64 quantums of four characters; padding (`=`) is allowed
only in the final quantum, as in Go's (non-strict) `StdEncoding`. -/
def b64Quantums : List Char → Option (List Nat)
  | [] => some []
  | c1 :: c2 :: c3 :: c4 :: rest =>
    match b64Val c1, b64Val c2 with
    | some v1, some v2 =>
      if c3 = '=' && c4 = '=' && rest.isEmpty then
        some [v1 * 4 + v2 / 16]
      else if c4 = '=' && rest.isEmpty then
        match b64Val c3 with
        | some v3 => some [v1 * 4 + v2 / 16, (v2 % 16) * 16 + v3 / 4]
        | none => none
      else
        match b64Val c3, b64Val c4, b64Quantums rest with
        | some v3, some v4, some bs =>
          some ([v1 * 4 + v2 / 16, (v2 % 16) * 16 + v3 / 4, (v3 % 4) * 64 + v4] ++ bs)
        | _, _, _ => none
    | _, _ => none
  | _ => none

/-- `base64.StdEncoding.DecodeString`: `some bytes` models `err == nil`.
Go's decoder ignores `\r` and `\n` in the input. -/
def base64Decode (s : String) : Option (List Nat) :=
  b64Quantums (s.data.filter (fun c => c != '\n' && c != '\r'))

/-- `^([^:]+):(.+)$` (`basicUserReStr`) over the decoded byte string:
`some (u, p)` is a match with capture groups `u` (user) and `p`
(password); `none` is `len(userMatches) == 0`, on which the Go code
faults (see `verifyBasicAuth`).  The greedy first group forces the split
at the first colon (byte 58); `(.+)` requires the password part to be
non-empty and free of newlines (byte 10). -/
def basicUserMatch (bytes : List Nat) : Option (List Nat × List Nat) :=
  match splitAtFirstColon bytes with
  | some (u, p) =>
    if u.isEmpty || p.isEmpty || p.contains 10 then none else some (u, p)
  | none => none
where
  /-- Split a byte string at its first colon; `none` if it has no colon. -/
  splitAtFirstColon : List Nat → Option (List Nat × List Nat)
    | [] => none
    | b :: bs =>
      if b = 58 then some ([], bs)
      else
        match splitAtFirstColon bs with
        | some (u, p) => some (b :: u, p)
        | none => none

/-! ## `token.Holder` (src/token/holder.go, multi-host variant)

The holder fields are the five structures `makeHolder` builds:

    hosts                   []string
    bearerTokenAllowedPaths map[string]map[string][]*regexp.Regexp
    bearerTokens            map[string][]string
    basicAuthPaths          map[string]map[string]map[string]string
    noAuthPaths             map[string][]string

Compiled regexes are represented by their pattern strings. -/

/-- The in-memory policy document (`token.Holder`). -/
structure Holder where
  hosts : List String
  bearerTokenAllowedPaths : List (String × List (String × List String))
  bearerTokens : List (String × List String)
  basicAuthPaths : List (String × List (String × List (String × String)))
  noAuthPaths : List (String × List String)
deriving DecidableEq

/-- The holder all fields of which are empty (what `makeHolder` yields on
a failed parse or for the document `[]`). -/
def emptyHolder : Holder :=
  { hosts := [], bearerTokenAllowedPaths := [], bearerTokens := [],
    basicAuthPaths := [], noAuthPaths := [] }

/-- `Holder.GetHosts`. -/
def Holder.getHosts (h : Holder) : List String := h.hosts

/-- `Holder.HasToken`: `_, ok := holder.bearerTokenAllowedPaths[host][token]`
(a read through a missing host gives Go's nil map, on which every lookup
misses). -/
def Holder.hasToken (h : Holder) (host tok : String) : Bool :=
  (alGet? ((alGet? h.bearerTokenAllowedPaths host).getD []) tok).isSome

/-- `Holder.GetAllowedPaths`: nil lookups give the empty slice. -/
def Holder.getAllowedPaths (h : Holder) (host tok : String) : List String :=
  (alGet? ((alGet? h.bearerTokenAllowedPaths host).getD []) tok).getD []

/-- `Holder.GetBasicAuthConf`: the per-host map, nil (empty) if absent. -/
def Holder.getBasicAuthConf (h : Holder) (host : String) :
    List (String × List (String × String)) :=
  (alGet? h.basicAuthPaths host).getD []

/-- `Holder.GetNoAuthPaths`: the per-host pattern list, nil if absent. -/
def Holder.getNoAuthPaths (h : Holder) (host : String) : List String :=
  (alGet? h.noAuthPaths host).getD []

/-! ## The configuration parse (the `UnmarshalJSON` methods)

A decoded JSON object field is `absent` (pointer left nil), `invalid`
(the field is present but `encoding/json` cannot decode it into the
target type, e.g. `allowed_paths` is not a list — the error aborts the
surrounding `Unmarshal`), or a value. -/

/-- One raw JSON field as seen by the `UnmarshalJSON` methods. -/
inductive JField (α : Type) where
  | absent
  | invalid
  | val (a : α)
deriving DecidableEq

/-- Raw `bearer_tokens` entry before validation. -/
structure BearerTokensP where
  token : JField String
  rawAllowedPaths : JField (List String)
deriving DecidableEq

/-- Validated `bearer_tokens` entry. -/
structure BearerTokensV where
  token : String
  rawAllowedPaths : List String
deriving DecidableEq

/-- `bearerTokens.UnmarshalJSON`: both fields are required; a field that
fails to decode aborts with the json error. -/
def bearerTokensUnmarshal : BearerTokensP → Except String BearerTokensV
  | { token := .invalid, .. } => .error "json: cannot unmarshal"
  | { rawAllowedPaths := .invalid, .. } => .error "json: cannot unmarshal"
  | { token := .absent, .. } => .error "bearer_tokens.token is required"
  | { rawAllowedPaths := .absent, .. } => .error "bearer_tokens.allowed_paths is required"
  | { token := .val t, rawAllowedPaths := .val ps } => .ok { token := t, rawAllowedPaths := ps }

/-- Raw `basic_auths` entry before validation. -/
structure BasicAuthsP where
  username : JField String
  password : JField String
  rawAllowedPaths : JField (List String)
deriving DecidableEq

/-- Validated `basic_auths` entry. -/
structure BasicAuthsV where
  username : String
  password : String
  rawAllowedPaths : List String
deriving DecidableEq

/-- `basicAuths.UnmarshalJSON`: all three fields are required. -/
def basicAuthsUnmarshal : BasicAuthsP → Except String BasicAuthsV
  | { username := .invalid, .. } => .error "json: cannot unmarshal"
  | { password := .invalid, .. } => .error "json: cannot unmarshal"
  | { rawAllowedPaths := .invalid, .. } => .error "json: cannot unmarshal"
  | { username := .absent, .. } => .error "basic_auths.username is required"
  | { password := .absent, .. } => .error "basic_auths.password is required"
  | { rawAllowedPaths := .absent, .. } => .error "basic_auths.allowed_paths is required"
  | { username := .val u, password := .val pw, rawAllowedPaths := .val ps } =>
    .ok { username := u, password := pw, rawAllowedPaths := ps }

/-- `noAuths.UnmarshalJSON`: `allowed_paths` is optional and defaults to
the empty list; a present but undecodable field still aborts. -/
def noAuthsUnmarshal : JField (List String) → Except String (List String)
  | .invalid => .error "json: cannot unmarshal"
  | .absent => .ok []
  | .val ps => .ok ps

/-- Raw `settings` object before validation. -/
structure AuthTokensP where
  bearerTokens : JField (List BearerTokensP)
  basicAuths : JField (List BasicAuthsP)
  noAuths : JField (JField (List String))
deriving DecidableEq

/-- Validated `settings` object. -/
structure AuthTokensV where
  bearerTokens : List BearerTokensV
  basicAuths : List BasicAuthsV
  noAuths : List String
deriving DecidableEq

/-- `authTokens.UnmarshalJSON`: `bearer_tokens`, `basic_auths` and
`no_auths` are all required; decoding each element runs the element's
`UnmarshalJSON`, whose failure propagates. -/
def authTokensUnmarshal (t : AuthTokensP) : Except String AuthTokensV := do
  let bts ← match t.bearerTokens with
    | .invalid => .error "json: cannot unmarshal"
    | .absent => .error "bearer_tokens is required"
    | .val l => l.mapM bearerTokensUnmarshal
  let bas ← match t.basicAuths with
    | .invalid => .error "json: cannot unmarshal"
    | .absent => .error "basic_auths is required"
    | .val l => l.mapM basicAuthsUnmarshal
  let nas ← match t.noAuths with
    | .invalid => .error "json: cannot unmarshal"
    | .absent => .error "no_auths is required"
    | .val f => noAuthsUnmarshal f
  .ok { bearerTokens := bts, basicAuths := bas, noAuths := nas }

/-- Raw host record before validation. -/
structure HostSettingsP where
  host : JField String
  settings : JField AuthTokensP
deriving DecidableEq

/-- Validated host record (one `HostPolicy` of the spec). -/
structure HostSettingsV where
  host : String
  settings : AuthTokensV
deriving DecidableEq

/-- `hostSettings.UnmarshalJSON`: `host` and `settings` are required. -/
def hostSettingsUnmarshal (s : HostSettingsP) : Except String HostSettingsV := do
  match s.host with
  | .invalid => .error "json: cannot unmarshal"
  | .absent => .error "host is required"
  | .val h =>
    match s.settings with
    | .invalid => .error "json: cannot unmarshal"
    | .absent => .error "seettings is required"
    | .val t => do
      let tv ← authTokensUnmarshal t
      .ok { host := h, settings := tv }

/-- The raw `AUTH_TOKENS` document: either not a JSON array at all, or an
array of raw host records. -/
inductive RawTokens where
  | malformed
  | arr (records : List HostSettingsP)
deriving DecidableEq

/-- `json.Unmarshal(rawTokens, &hostSettingsList)`: the whole decode
fails if the top level is not an array or if any record's
`UnmarshalJSON` fails. -/
def parseDoc : RawTokens → Except String (List HostSettingsV)
  | .malformed => .error "json: cannot unmarshal"
  | .arr records => records.mapM hostSettingsUnmarshal

/-! ## `makeHolder`, `loadFile`, `monitor` -/

/-- The loop body of `makeHolder` for one `bearerToken` entry: compile
each `allowed_paths` pattern, dropping the ones that fail
(`regexp.Compile` success is the oracle `compileOk`); only when at least
one pattern survives is the token registered under the host. -/
def addBearerToken (compileOk : String → Bool) (host : String)
    (acc : Holder) (bt : BearerTokensV) : Holder :=
  let sl := bt.rawAllowedPaths.filter compileOk
  if sl.length > 0 then
    { acc with
      bearerTokenAllowedPaths :=
        alInsert acc.bearerTokenAllowedPaths host
          (alInsert ((alGet? acc.bearerTokenAllowedPaths host).getD []) bt.token sl)
      bearerTokens :=
        alInsert acc.bearerTokens host
          (((alGet? acc.bearerTokens host).getD []) ++ [bt.token]) }
  else acc

/-- The loop body of `makeHolder` for one `basicAuth` entry: every
`(path-pattern, username, password)` triple is folded into
`basicAuthPaths[host][pattern][username] = password`. -/
def addBasicAuth (host : String) (acc : Holder) (ba : BasicAuthsV) : Holder :=
  { acc with
    basicAuthPaths :=
      ba.rawAllowedPaths.foldl
        (fun m pat =>
          alInsert m host
            (alInsert ((alGet? m host).getD [])
              pat
              (alInsert ((alGet? ((alGet? m host).getD []) pat).getD [])
                ba.username ba.password)))
        acc.basicAuthPaths }

/-- The body of `makeHolder`'s outer loop for one host record. -/
def processHostSettings (compileOk : String → Bool) (acc : Holder)
    (hs : HostSettingsV) : Holder :=
  let acc := { acc with hosts := acc.hosts ++ [hs.host] }
  let acc := hs.settings.bearerTokens.foldl (addBearerToken compileOk hs.host) acc
  let acc := hs.settings.basicAuths.foldl (addBasicAuth hs.host) acc
  { acc with noAuthPaths := alInsert acc.noAuthPaths hs.host hs.settings.noAuths }

/-- The successful-parse branch of `makeHolder`: build the five
structures from the decoded host list, starting from empty ones. -/
def buildHolder (compileOk : String → Bool) (l : List HostSettingsV) : Holder :=
  l.foldl (processHostSettings compileOk) emptyHolder

/-- `makeHolder(holder, rawTokens)`: on a successful parse the freshly
built structures are assigned to the holder; on a parse failure the
error is logged and the *still-empty* local structures are assigned
anyway — the previous contents of `holder` are overwritten in both
cases (the `holder` argument never flows into the result). -/
def makeHolder (compileOk : String → Bool) (_holder : Holder)
    (rawTokens : RawTokens) : Holder :=
  match parseDoc rawTokens with
  | .ok l => buildHolder compileOk l
  | .error _ => emptyHolder

/-- What `loadFile` reads: either the file cannot be opened (the local
`rawTokens` keeps its initial value `[]byte("[]")`) or its contents. -/
inductive FileRead where
  | unreadable
  | content (raw : RawTokens)
deriving DecidableEq

/-- `loadFile(holder, rawTokensPath)` with a non-empty path: read the
file if possible, else keep `[]`, and hand the bytes to `makeHolder`.
`monitor` calls exactly this on every filesystem event, so this is also
the reload step. -/
def loadFile (compileOk : String → Bool) (holder : Holder)
    (fr : FileRead) : Holder :=
  match fr with
  | .unreadable => makeHolder compileOk holder (.arr [])
  | .content raw => makeHolder compileOk holder raw

/-! ## The multi-host router (src/unnamed/part_002)

The decision path registered with `engine.NoRoute` and its helper
methods.  `RMatch` abstracts `regexp.MustCompile(pat).MatchString(s)`
(the configured host, no-auth, basic-auth and bearer patterns are
arbitrary; the model assumes the patterns handed to `MustCompile`
compile, as any run reaching these calls does). -/

/-- The regex-match oracle: `m pat subject`. -/
abbrev RMatch := String → String → Bool

/-- The value cached by `matchHostCache` (`hostTuple`); its Go zero value
is `{host: "", allowed: false}`. -/
structure HostTuple where
  host : String
  allowed : Bool
deriving DecidableEq

/-- The five lru caches a `Handler` owns. -/
structure Caches where
  matchHostCache : List (String × HostTuple)
  matchBasicAuthPathCache : List (String × Bool)
  verifyBasicAuthCache : List (String × Bool)
  matchBearerAuthPathCache : List (String × Bool)
  matchNoAuthPathCache : List (String × Bool)
deriving DecidableEq

/-- The fresh caches `NewHandler` creates. -/
def emptyCaches : Caches :=
  { matchHostCache := [], matchBasicAuthPathCache := [],
    verifyBasicAuthCache := [], matchBearerAuthPathCache := [],
    matchNoAuthPathCache := [] }

/-- `Handler.matchHost`: on a cache miss, store `{"", false}` and then
overwrite with `{host, true}` for *every* matching host of the scan (the
final overwrite is the last match); return the cached tuple. -/
def matchHost (m : RMatch) (c : Caches) (domain : String)
    (hosts : List String) : (String × Bool) × Caches :=
  let cache :=
    if alContains c.matchHostCache domain then c.matchHostCache
    else
      hosts.foldl
        (fun cache host =>
          if m host domain then alInsert cache domain ⟨host, true⟩ else cache)
        (alInsert c.matchHostCache domain ⟨"", false⟩)
  let r := alGetD cache domain ⟨"", false⟩
  ((r.host, r.allowed), { c with matchHostCache := cache })

/-- `Handler.matchNoAuthPath`: cached any-match of the host's no-auth
patterns against the path, keyed by `domain \t path`. -/
def matchNoAuthPath (m : RMatch) (c : Caches) (domain path : String)
    (noAuthPaths : List String) : Bool × Caches :=
  let key := domain ++ "\t" ++ path
  let cache :=
    if alContains c.matchNoAuthPathCache key then c.matchNoAuthPathCache
    else
      noAuthPaths.foldl
        (fun cache noAuthPath =>
          if m noAuthPath path then alInsert cache key true else cache)
        (alInsert c.matchNoAuthPathCache key false)
  (alGetD cache key false, { c with matchNoAuthPathCache := cache })

/-- `Handler.matchBasicAuthPath`: cached any-match of the keys of the
host's basic-auth conf against the path, keyed by `domain \t path`. -/
def matchBasicAuthPath (m : RMatch) (c : Caches) (domain path : String)
    (basicAuthConf : List (String × List (String × String))) : Bool × Caches :=
  let key := domain ++ "\t" ++ path
  let cache :=
    if alContains c.matchBasicAuthPathCache key then c.matchBasicAuthPathCache
    else
      basicAuthConf.foldl
        (fun cache entry =>
          if m entry.1 path then alInsert cache key true else cache)
        (alInsert c.matchBasicAuthPathCache key false)
  (alGetD cache key false, { c with matchBasicAuthPathCache := cache })

/-- The credentials check of `verifyBasicAuth`'s inner loop: some
matching path-pattern key carries the decoded username with exactly the
decoded password (`password, ok := user[...]` then `password == ...`). -/
def basicCredentialOk (m : RMatch) (path : String)
    (basicAuthConf : List (String × List (String × String)))
    (u p : List Nat) : Bool :=
  basicAuthConf.any (fun entry =>
    m entry.1 path &&
      match entry.2.find? (fun up => strBytes up.1 == u) with
      | some up => strBytes up.2 == p
      | none => false)

/-- `Handler.verifyBasicAuth`, keyed by `authHeader \t domain \t path`.
On a cache miss it stores `false`, then — if the header is a well-formed
`Basic` value with a base64-decodable payload — runs `basicUserReStr`
over the decoded bytes and indexes `userMatches[0]` *without checking
that a match exists*: when the decoded credentials have no colon (or an
empty user or password part) the Go code faults with an index-out-of-range
runtime error, modelled as `.error ()`.  Otherwise the loop overwrites
the entry with `true` when some matching path pattern carries the
credentials, and the cached value is returned.  (The source's
`len(authHeader) > 0 &&` guard is subsumed: an empty header cannot match
`(?i)^basic (.+)$`.) -/
def verifyBasicAuth (m : RMatch) (c : Caches) (domain path authHeader : String)
    (basicAuthConf : List (String × List (String × String))) :
    Except Unit (Bool × Caches) :=
  let key := authHeader ++ "\t" ++ domain ++ "\t" ++ path
  if alContains c.verifyBasicAuthCache key then
    .ok (alGetD c.verifyBasicAuthCache key false, c)
  else
    let cache := alInsert c.verifyBasicAuthCache key false
    match basicHeaderMatch authHeader with
    | none =>
      .ok (alGetD cache key false, { c with verifyBasicAuthCache := cache })
    | some payload =>
      match base64Decode payload with
      | none =>
        .ok (alGetD cache key false, { c with verifyBasicAuthCache := cache })
      | some decoded =>
        match basicUserMatch decoded with
        | none => .error ()
        | some (u, p) =>
          let cache :=
            if basicCredentialOk m path basicAuthConf u p then
              alInsert cache key true
            else cache
          .ok (alGetD cache key false, { c with verifyBasicAuthCache := cache })

/-- `Handler.matchBearerAuthPath`: cached any-match of the token's
compiled allowed paths against the path, keyed by
`token \t domain \t path`. -/
def matchBearerAuthPath (m : RMatch) (c : Caches) (domain path tok : String)
    (allowedPaths : List String) : Bool × Caches :=
  let key := tok ++ "\t" ++ domain ++ "\t" ++ path
  let cache :=
    if alContains c.matchBearerAuthPathCache key then c.matchBearerAuthPathCache
    else
      allowedPaths.foldl
        (fun cache allowedPath =>
          if m allowedPath path then alInsert cache key true else cache)
        (alInsert c.matchBearerAuthPathCache key false)
  (alGetD cache key false, { c with matchBearerAuthPathCache := cache })

/-- The closed verdict set.  Each verdict names the response function the
`NoRoute` closure calls: `DomainDenied` is `domainNotAllowed` (403),
`NoAuthGranted`, `BasicAuthGranted` and `BearerPathGranted` are the three
`statusOK` calls (200), `BasicAuthRequired` is `basicAuthRequired` (401),
`BearerHeaderMissing` is `authHeaderMissing` (401), `BearerTokenUnknown`
is `tokenMissmatch` (401) and `BearerPathDenied` is `pathNotAllowed`
(403). -/
inductive Verdict where
  | DomainDenied
  | NoAuthGranted
  | BasicAuthRequired
  | BasicAuthGranted
  | BearerHeaderMissing
  | BearerTokenUnknown
  | BearerPathDenied
  | BearerPathGranted
deriving DecidableEq

/-- The decision path of `NewHandler`'s `engine.NoRoute` closure:
host match, then no-auth paths, then basic auth, then the bearer branch.
`.error ()` is the runtime fault of `verifyBasicAuth`. -/
def noRoute (m : RMatch) (holder : Holder) (c : Caches)
    (domain path authHeader : String) : Except Unit (Verdict × Caches) :=
  let ((host, allowed), c) := matchHost m c domain holder.getHosts
  if allowed then
    let (noAuth, c) := matchNoAuthPath m c domain path (holder.getNoAuthPaths host)
    if noAuth then .ok (.NoAuthGranted, c)
    else
      let (isBasic, c) := matchBasicAuthPath m c domain path (holder.getBasicAuthConf host)
      if isBasic then
        (match verifyBasicAuth m c domain path authHeader (holder.getBasicAuthConf host) with
         | .error e => .error e
         | .ok (true, c) => .ok (.BasicAuthGranted, c)
         | .ok (false, c) => .ok (.BasicAuthRequired, c))
      else if authHeader.length = 0 then
        .ok (.BearerHeaderMissing, c)
      else
        match bearerHeaderMatch authHeader with
        | none => .ok (.BearerTokenUnknown, c)
        | some tok =>
          if !holder.hasToken host tok then .ok (.BearerTokenUnknown, c)
          else
            let (pathOk, c) :=
              matchBearerAuthPath m c domain path tok (holder.getAllowedPaths host tok)
            if pathOk then .ok (.BearerPathGranted, c) else .ok (.BearerPathDenied, c)
  else
    .ok (.DomainDenied, c)

/-- The verdict alone (final cache state projected away). -/
def noRouteV (m : RMatch) (holder : Holder) (c : Caches)
    (domain path authHeader : String) : Except Unit Verdict :=
  (noRoute m holder c domain path authHeader).map (fun r => r.1)

/-! ## The variant router (src/router/handler.go)

This handler has no host dimension: its `token.Holder` (the single-host
variant in holder.go) exposes `GetBasicAuthConf()`, `HasToken(token)`
and `GetAllowedPaths(token)`, and the `NoRoute` closure first tests the
request path against the compiled constant `staticReStr` (the pattern
`^.*/static/.*$`) and serves `statusOK` on a match before any other
check. -/

/-- The single-host holder of the variant (`bearerTokenAllowdPathes`,
`basicAuthPathes`). -/
structure VHolder where
  bearerTokenAllowdPathes : List (String × List String)
  basicAuthPathes : List (String × List (String × String))
deriving DecidableEq

/-- `Holder.HasToken` of the variant. -/
def VHolder.hasToken (h : VHolder) (tok : String) : Bool :=
  (alGet? h.bearerTokenAllowdPathes tok).isSome

/-- `Holder.GetAllowedPaths` of the variant. -/
def VHolder.getAllowedPaths (h : VHolder) (tok : String) : List String :=
  (alGet? h.bearerTokenAllowdPathes tok).getD []

/-- The three lru caches of the variant `Handler`. -/
structure VCaches where
  matchBasicAuthPathCache : List (String × Bool)
  verifyBasicAuthCache : List (String × Bool)
  matchBearerAuthPathCache : List (String × Bool)
deriving DecidableEq

/-- The variant's verdicts; `StaticGranted` is the `statusOK` served from
the `pathRe.MatchString(path)` branch. -/
inductive VVerdict where
  | StaticGranted
  | BasicAuthRequired
  | BasicAuthGranted
  | BearerHeaderMissing
  | BearerTokenUnknown
  | BearerPathDenied
  | BearerPathGranted
deriving DecidableEq

/-- The HTTP status each variant verdict is served with. -/
def vStatus : VVerdict → Nat
  | .StaticGranted => 200
  | .BasicAuthRequired => 401
  | .BasicAuthGranted => 200
  | .BearerHeaderMissing => 401
  | .BearerTokenUnknown => 401
  | .BearerPathDenied => 403
  | .BearerPathGranted => 200

/-- Variant `Handler.matchBasicAuthPath`, keyed by the path alone. -/
def vMatchBasicAuthPath (m : RMatch) (c : VCaches) (path : String)
    (basicAuthConf : List (String × List (String × String))) : Bool × VCaches :=
  let cache :=
    if alContains c.matchBasicAuthPathCache path then c.matchBasicAuthPathCache
    else
      basicAuthConf.foldl
        (fun cache entry =>
          if m entry.1 path then alInsert cache path true else cache)
        (alInsert c.matchBasicAuthPathCache path false)
  (alGetD cache path false, { c with matchBasicAuthPathCache := cache })

/-- Variant `Handler.verifyBasicAuth`, keyed by `authHeader \t path`;
it has the same unguarded `userMatches[0]` index as the multi-host
router. -/
def vVerifyBasicAuth (m : RMatch) (c : VCaches) (path authHeader : String)
    (basicAuthConf : List (String × List (String × String))) :
    Except Unit (Bool × VCaches) :=
  let key := authHeader ++ "\t" ++ path
  if alContains c.verifyBasicAuthCache key then
    .ok (alGetD c.verifyBasicAuthCache key false, c)
  else
    let cache := alInsert c.verifyBasicAuthCache key false
    match basicHeaderMatch authHeader with
    | none =>
      .ok (alGetD cache key false, { c with verifyBasicAuthCache := cache })
    | some payload =>
      match base64Decode payload with
      | none =>
        .ok (alGetD cache key false, { c with verifyBasicAuthCache := cache })
      | some decoded =>
        match basicUserMatch decoded with
        | none => .error ()
        | some (u, p) =>
          let cache :=
            if basicCredentialOk m path basicAuthConf u p then
              alInsert cache key true
            else cache
          .ok (alGetD cache key false, { c with verifyBasicAuthCache := cache })

/-- Variant `Handler.matchBearerAuthPath`, keyed by `token \t path`. -/
def vMatchBearerAuthPath (m : RMatch) (c : VCaches) (path tok : String)
    (allowedPaths : List String) : Bool × VCaches :=
  let key := tok ++ "\t" ++ path
  let cache :=
    if alContains c.matchBearerAuthPathCache key then c.matchBearerAuthPathCache
    else
      allowedPaths.foldl
        (fun cache allowedPath =>
          if m allowedPath path then alInsert cache key true else cache)
        (alInsert c.matchBearerAuthPathCache key false)
  (alGetD cache key false, { c with matchBearerAuthPathCache := cache })

/-- The variant's `engine.NoRoute` closure: the static-pattern test runs
first, before the basic-auth and bearer checks. -/
def vNoRoute (m : RMatch) (holder : VHolder) (c : VCaches)
    (path authHeader : String) : Except Unit (VVerdict × VCaches) :=
  if staticMatch path then .ok (.StaticGranted, c)
  else
    let (isBasic, c) := vMatchBasicAuthPath m c path holder.basicAuthPathes
    if isBasic then
      (match vVerifyBasicAuth m c path authHeader holder.basicAuthPathes with
       | .error e => .error e
       | .ok (true, c) => .ok (.BasicAuthGranted, c)
       | .ok (false, c) => .ok (.BasicAuthRequired, c))
    else if authHeader.length = 0 then
      .ok (.BearerHeaderMissing, c)
    else
      match bearerHeaderMatch authHeader with
      | none => .ok (.BearerTokenUnknown, c)
      | some tok =>
        if !holder.hasToken tok then .ok (.BearerTokenUnknown, c)
        else
          let (pathOk, c) :=
            vMatchBearerAuthPath m c path tok (holder.getAllowedPaths tok)
          if pathOk then .ok (.BearerPathGranted, c) else .ok (.BearerPathDenied, c)

/-! ## Characterizing the cache-filling loops -/

/-- The flag-writing loops of the path matchers: starting from a cache
that holds `b` at `key`, writing `true` on every hit leaves
`b || l.any cond` at `key`. -/
theorem alGet?_foldl_flag {α : Type} (key : String) (cond : α → Bool) (l : List α)
    (c : List (String × Bool)) (b : Bool) (h : alGet? c key = some b) :
    alGet? (l.foldl (fun cache x => if cond x then alInsert cache key true else cache) c) key
      = some (b || l.any cond) := by
  induction l generalizing c b with
  | nil => simpa using h
  | cons x t ih =>
    simp only [List.foldl_cons, List.any_cons]
    cases hx : cond x with
    | true =>
      simp only [hx, if_true]
      rw [ih (alInsert c key true) true (alGet?_insert_self c key true)]
      simp
    | false =>
      simp only [hx, Bool.false_eq_true, if_false]
      rw [ih c b h]
      simp

/-- The tuple-writing loop of `matchHost`: each matching host overwrites
the entry, so the cache ends at the fold of the overwrites. -/
theorem alGet?_foldl_host (domain : String) (m : RMatch) (hosts : List String)
    (c : List (String × HostTuple)) (t : HostTuple) (h : alGet? c domain = some t) :
    alGet? (hosts.foldl
        (fun cache host => if m host domain then alInsert cache domain ⟨host, true⟩ else cache) c)
        domain
      = some (hosts.foldl (fun acc host => if m host domain then ⟨host, true⟩ else acc) t) := by
  induction hosts generalizing c t with
  | nil => simpa using h
  | cons x xs ih =>
    simp only [List.foldl_cons]
    cases hx : m x domain with
    | true =>
      simp only [hx, if_true]
      exact ih (alInsert c domain ⟨x, true⟩) ⟨x, true⟩ (alGet?_insert_self c domain ⟨x, true⟩)
    | false =>
      simp only [hx, Bool.false_eq_true, if_false]
      exact ih c t h

/-- A fold whose step fires on no element is the identity. -/
theorem foldl_ite_id {α β : Type} (cond : α → Bool) (f : β → α → β) (l : List α) (c : β)
    (h : ∀ x ∈ l, cond x = false) :
    l.foldl (fun acc x => if cond x then f acc x else acc) c = c := by
  induction l generalizing c with
  | nil => rfl
  | cons x t ih =>
    simp only [List.foldl_cons, h x (by simp), Bool.false_eq_true, if_false]
    exact ih c (fun y hy => h y (by simp [hy]))

/-- Invariant preservation along a fold. -/
theorem foldl_preserve {α β : Type} (P : β → Prop) (f : β → α → β) (l : List α) (b : β)
    (hb : P b) (hf : ∀ acc x, x ∈ l → P acc → P (f acc x)) : P (l.foldl f b) := by
  induction l generalizing b with
  | nil => exact hb
  | cons x t ih =>
    exact ih (f b x) (hf b x (List.mem_cons_self x t) hb)
      (fun acc y hy hacc => hf acc y (List.mem_cons_of_mem x hy) hacc)

/-! ## `matchHost` lemmas -/

/-- On a cache hit, `matchHost` returns the cached tuple and leaves the
caches untouched. -/
theorem matchHost_hit (m : RMatch) (c : Caches) (domain : String) (hosts : List String)
    (t : HostTuple) (h : alGet? c.matchHostCache domain = some t) :
    matchHost m c domain hosts = ((t.host, t.allowed), c) := by
  have hc : alContains c.matchHostCache domain = true := by
    unfold alContains; rw [h]; rfl
  unfold matchHost
  simp only [hc, if_true]
  unfold alGetD
  rw [h]
  rfl

/-- After any `matchHost` call, the cache holds exactly the returned
tuple, and the other four caches are untouched. -/
theorem matchHost_get (m : RMatch) (c : Caches) (domain : String) (hosts : List String)
    (hst : String) (a : Bool) (c' : Caches)
    (heq : matchHost m c domain hosts = ((hst, a), c')) :
    alGet? c'.matchHostCache domain = some ⟨hst, a⟩ ∧
      c'.matchBasicAuthPathCache = c.matchBasicAuthPathCache ∧
      c'.verifyBasicAuthCache = c.verifyBasicAuthCache ∧
      c'.matchBearerAuthPathCache = c.matchBearerAuthPathCache ∧
      c'.matchNoAuthPathCache = c.matchNoAuthPathCache := by
  unfold matchHost at heq
  by_cases hc : alContains c.matchHostCache domain = true
  · simp only [hc, if_true] at heq
    obtain ⟨t, ht⟩ : ∃ t, alGet? c.matchHostCache domain = some t := by
      unfold alContains at hc
      cases hg : alGet? c.matchHostCache domain with
      | none => rw [hg] at hc; simp at hc
      | some t => exact ⟨t, rfl⟩
    rw [show alGetD c.matchHostCache domain ⟨"", false⟩ = t by unfold alGetD; rw [ht]; rfl] at heq
    obtain ⟨h1, h2⟩ := Prod.mk.injEq .. ▸ heq
    obtain ⟨hh, ha⟩ := Prod.mk.injEq .. ▸ h1
    subst h2
    refine ⟨?_, rfl, rfl, rfl, rfl⟩
    rw [ht, ← hh, ← ha]
  · rw [Bool.not_eq_true] at hc
    simp only [hc, Bool.false_eq_true, if_false] at heq
    set cache := hosts.foldl
      (fun cache host => if m host domain then alInsert cache domain ⟨host, true⟩ else cache)
      (alInsert c.matchHostCache domain ⟨"", false⟩) with hcache
    have hget : alGet? cache domain
        = some (hosts.foldl (fun acc host => if m host domain then ⟨host, true⟩ else acc)
            ⟨"", false⟩) :=
      alGet?_foldl_host domain m hosts _ _ (alGet?_insert_self c.matchHostCache domain ⟨"", false⟩)
    rw [show alGetD cache domain ⟨"", false⟩
        = hosts.foldl (fun acc host => if m host domain then ⟨host, true⟩ else acc) ⟨"", false⟩ by
      unfold alGetD; rw [hget]; rfl] at heq
    obtain ⟨h1, h2⟩ := Prod.mk.injEq .. ▸ heq
    obtain ⟨hh, ha⟩ := Prod.mk.injEq .. ▸ h1
    subst h2
    refine ⟨?_, rfl, rfl, rfl, rfl⟩
    show alGet? cache domain = _
    rw [hget, ← hh, ← ha]

/-! ## Lemmas for the boolean path matchers -/

theorem matchNoAuthPath_hit (m : RMatch) (c : Caches) (domain path : String)
    (l : List String) (b : Bool)
    (h : alGet? c.matchNoAuthPathCache (domain ++ "\t" ++ path) = some b) :
    matchNoAuthPath m c domain path l = (b, c) := by
  have hc : alContains c.matchNoAuthPathCache (domain ++ "\t" ++ path) = true := by
    unfold alContains; rw [h]; rfl
  unfold matchNoAuthPath
  simp only [hc, if_true]
  unfold alGetD
  rw [h]
  rfl

theorem matchNoAuthPath_get (m : RMatch) (c : Caches) (domain path : String)
    (l : List String) (b : Bool) (c' : Caches)
    (heq : matchNoAuthPath m c domain path l = (b, c')) :
    alGet? c'.matchNoAuthPathCache (domain ++ "\t" ++ path) = some b ∧
      c'.matchHostCache = c.matchHostCache ∧
      c'.matchBasicAuthPathCache = c.matchBasicAuthPathCache ∧
      c'.verifyBasicAuthCache = c.verifyBasicAuthCache ∧
      c'.matchBearerAuthPathCache = c.matchBearerAuthPathCache := by
  unfold matchNoAuthPath at heq
  by_cases hc : alContains c.matchNoAuthPathCache (domain ++ "\t" ++ path) = true
  · simp only [hc, if_true] at heq
    obtain ⟨t, ht⟩ : ∃ t, alGet? c.matchNoAuthPathCache (domain ++ "\t" ++ path) = some t := by
      unfold alContains at hc
      cases hg : alGet? c.matchNoAuthPathCache (domain ++ "\t" ++ path) with
      | none => rw [hg] at hc; simp at hc
      | some t => exact ⟨t, rfl⟩
    rw [show alGetD c.matchNoAuthPathCache (domain ++ "\t" ++ path) false = t by
      unfold alGetD; rw [ht]; rfl] at heq
    obtain ⟨h1, h2⟩ := Prod.mk.injEq .. ▸ heq
    subst h2
    exact ⟨by rw [ht, h1], rfl, rfl, rfl, rfl⟩
  · rw [Bool.not_eq_true] at hc
    simp only [hc, Bool.false_eq_true, if_false] at heq
    set cache := l.foldl
      (fun cache noAuthPath =>
        if m noAuthPath path then alInsert cache (domain ++ "\t" ++ path) true else cache)
      (alInsert c.matchNoAuthPathCache (domain ++ "\t" ++ path) false) with hcache
    have hget : alGet? cache (domain ++ "\t" ++ path)
        = some (false || l.any (fun pat => m pat path)) :=
      alGet?_foldl_flag (domain ++ "\t" ++ path) (fun pat => m pat path) l _ _
        (alGet?_insert_self c.matchNoAuthPathCache (domain ++ "\t" ++ path) false)
    rw [show alGetD cache (domain ++ "\t" ++ path) false
        = (false || l.any (fun pat => m pat path)) by
      unfold alGetD; rw [hget]; rfl] at heq
    obtain ⟨h1, h2⟩ := Prod.mk.injEq .. ▸ heq
    subst h2
    refine ⟨?_, rfl, rfl, rfl, rfl⟩
    show alGet? cache (domain ++ "\t" ++ path) = some b
    rw [hget, h1]

theorem matchNoAuthPath_miss (m : RMatch) (c : Caches) (domain path : String)
    (l : List String)
    (hc : alContains c.matchNoAuthPathCache (domain ++ "\t" ++ path) = false) :
    (matchNoAuthPath m c domain path l).1 = l.any (fun pat => m pat path) := by
  unfold matchNoAuthPath
  simp only [hc, Bool.false_eq_true, if_false]
  have hget := alGet?_foldl_flag (domain ++ "\t" ++ path) (fun pat => m pat path) l _ _
    (alGet?_insert_self c.matchNoAuthPathCache (domain ++ "\t" ++ path) false)
  unfold alGetD
  rw [hget]
  rfl

theorem matchBasicAuthPath_hit (m : RMatch) (c : Caches) (domain path : String)
    (conf : List (String × List (String × String))) (b : Bool)
    (h : alGet? c.matchBasicAuthPathCache (domain ++ "\t" ++ path) = some b) :
    matchBasicAuthPath m c domain path conf = (b, c) := by
  have hc : alContains c.matchBasicAuthPathCache (domain ++ "\t" ++ path) = true := by
    unfold alContains; rw [h]; rfl
  unfold matchBasicAuthPath
  simp only [hc, if_true]
  unfold alGetD
  rw [h]
  rfl

theorem matchBasicAuthPath_get (m : RMatch) (c : Caches) (domain path : String)
    (conf : List (String × List (String × String))) (b : Bool) (c' : Caches)
    (heq : matchBasicAuthPath m c domain path conf = (b, c')) :
    alGet? c'.matchBasicAuthPathCache (domain ++ "\t" ++ path) = some b ∧
      c'.matchHostCache = c.matchHostCache ∧
      c'.matchNoAuthPathCache = c.matchNoAuthPathCache ∧
      c'.verifyBasicAuthCache = c.verifyBasicAuthCache ∧
      c'.matchBearerAuthPathCache = c.matchBearerAuthPathCache := by
  unfold matchBasicAuthPath at heq
  by_cases hc : alContains c.matchBasicAuthPathCache (domain ++ "\t" ++ path) = true
  · simp only [hc, if_true] at heq
    obtain ⟨t, ht⟩ : ∃ t, alGet? c.matchBasicAuthPathCache (domain ++ "\t" ++ path) = some t := by
      unfold alContains at hc
      cases hg : alGet? c.matchBasicAuthPathCache (domain ++ "\t" ++ path) with
      | none => rw [hg] at hc; simp at hc
      | some t => exact ⟨t, rfl⟩
    rw [show alGetD c.matchBasicAuthPathCache (domain ++ "\t" ++ path) false = t by
      unfold alGetD; rw [ht]; rfl] at heq
    obtain ⟨h1, h2⟩ := Prod.mk.injEq .. ▸ heq
    subst h2
    exact ⟨by rw [ht, h1], rfl, rfl, rfl, rfl⟩
  · rw [Bool.not_eq_true] at hc
    simp only [hc, Bool.false_eq_true, if_false] at heq
    set cache := conf.foldl
      (fun cache entry =>
        if m entry.1 path then alInsert cache (domain ++ "\t" ++ path) true else cache)
      (alInsert c.matchBasicAuthPathCache (domain ++ "\t" ++ path) false) with hcache
    have hget : alGet? cache (domain ++ "\t" ++ path)
        = some (false || conf.any (fun entry => m entry.1 path)) :=
      alGet?_foldl_flag (domain ++ "\t" ++ path) (fun entry => m entry.1 path) conf _ _
        (alGet?_insert_self c.matchBasicAuthPathCache (domain ++ "\t" ++ path) false)
    rw [show alGetD cache (domain ++ "\t" ++ path) false
        = (false || conf.any (fun entry => m entry.1 path)) by
      unfold alGetD; rw [hget]; rfl] at heq
    obtain ⟨h1, h2⟩ := Prod.mk.injEq .. ▸ heq
    subst h2
    refine ⟨?_, rfl, rfl, rfl, rfl⟩
    show alGet? cache (domain ++ "\t" ++ path) = some b
    rw [hget, h1]

theorem matchBasicAuthPath_miss (m : RMatch) (c : Caches) (domain path : String)
    (conf : List (String × List (String × String)))
    (hc : alContains c.matchBasicAuthPathCache (domain ++ "\t" ++ path) = false) :
    (matchBasicAuthPath m c domain path conf).1 = conf.any (fun entry => m entry.1 path) := by
  unfold matchBasicAuthPath
  simp only [hc, Bool.false_eq_true, if_false]
  have hget := alGet?_foldl_flag (domain ++ "\t" ++ path) (fun entry => m entry.1 path) conf _ _
    (alGet?_insert_self c.matchBasicAuthPathCache (domain ++ "\t" ++ path) false)
  unfold alGetD
  rw [hget]
  rfl

theorem matchBearerAuthPath_hit (m : RMatch) (c : Caches) (domain path tok : String)
    (l : List String) (b : Bool)
    (h : alGet? c.matchBearerAuthPathCache (tok ++ "\t" ++ domain ++ "\t" ++ path) = some b) :
    matchBearerAuthPath m c domain path tok l = (b, c) := by
  have hc : alContains c.matchBearerAuthPathCache (tok ++ "\t" ++ domain ++ "\t" ++ path) = true := by
    unfold alContains; rw [h]; rfl
  unfold matchBearerAuthPath
  simp only [hc, if_true]
  unfold alGetD
  rw [h]
  rfl

theorem matchBearerAuthPath_get (m : RMatch) (c : Caches) (domain path tok : String)
    (l : List String) (b : Bool) (c' : Caches)
    (heq : matchBearerAuthPath m c domain path tok l = (b, c')) :
    alGet? c'.matchBearerAuthPathCache (tok ++ "\t" ++ domain ++ "\t" ++ path) = some b ∧
      c'.matchHostCache = c.matchHostCache ∧
      c'.matchNoAuthPathCache = c.matchNoAuthPathCache ∧
      c'.matchBasicAuthPathCache = c.matchBasicAuthPathCache ∧
      c'.verifyBasicAuthCache = c.verifyBasicAuthCache := by
  unfold matchBearerAuthPath at heq
  by_cases hc : alContains c.matchBearerAuthPathCache (tok ++ "\t" ++ domain ++ "\t" ++ path) = true
  · simp only [hc, if_true] at heq
    obtain ⟨t, ht⟩ : ∃ t, alGet? c.matchBearerAuthPathCache (tok ++ "\t" ++ domain ++ "\t" ++ path) = some t := by
      unfold alContains at hc
      cases hg : alGet? c.matchBearerAuthPathCache (tok ++ "\t" ++ domain ++ "\t" ++ path) with
      | none => rw [hg] at hc; simp at hc
      | some t => exact ⟨t, rfl⟩
    rw [show alGetD c.matchBearerAuthPathCache (tok ++ "\t" ++ domain ++ "\t" ++ path) false = t by
      unfold alGetD; rw [ht]; rfl] at heq
    obtain ⟨h1, h2⟩ := Prod.mk.injEq .. ▸ heq
    subst h2
    exact ⟨by rw [ht, h1], rfl, rfl, rfl, rfl⟩
  · rw [Bool.not_eq_true] at hc
    simp only [hc, Bool.false_eq_true, if_false] at heq
    set cache := l.foldl
      (fun cache allowedPath =>
        if m allowedPath path then alInsert cache (tok ++ "\t" ++ domain ++ "\t" ++ path) true else cache)
      (alInsert c.matchBearerAuthPathCache (tok ++ "\t" ++ domain ++ "\t" ++ path) false) with hcache
    have hget : alGet? cache (tok ++ "\t" ++ domain ++ "\t" ++ path)
        = some (false || l.any (fun pat => m pat path)) :=
      alGet?_foldl_flag (tok ++ "\t" ++ domain ++ "\t" ++ path) (fun pat => m pat path) l _ _
        (alGet?_insert_self c.matchBearerAuthPathCache (tok ++ "\t" ++ domain ++ "\t" ++ path) false)
    rw [show alGetD cache (tok ++ "\t" ++ domain ++ "\t" ++ path) false
        = (false || l.any (fun pat => m pat path)) by
      unfold alGetD; rw [hget]; rfl] at heq
    obtain ⟨h1, h2⟩ := Prod.mk.injEq .. ▸ heq
    subst h2
    refine ⟨?_, rfl, rfl, rfl, rfl⟩
    show alGet? cache (tok ++ "\t" ++ domain ++ "\t" ++ path) = some b
    rw [hget, h1]

/-! ## `verifyBasicAuth` lemmas -/

theorem verifyBasicAuth_hit (m : RMatch) (c : Caches) (domain path authHeader : String)
    (conf : List (String × List (String × String))) (b : Bool)
    (h : alGet? c.verifyBasicAuthCache (authHeader ++ "\t" ++ domain ++ "\t" ++ path) = some b) :
    verifyBasicAuth m c domain path authHeader conf = .ok (b, c) := by
  have hc : alContains c.verifyBasicAuthCache (authHeader ++ "\t" ++ domain ++ "\t" ++ path) = true := by
    unfold alContains; rw [h]; rfl
  unfold verifyBasicAuth
  simp only [hc, if_true]
  unfold alGetD
  rw [h]
  rfl

/-- Every normal return of `verifyBasicAuth` leaves the returned flag in
the cache under its key and touches no other cache. -/
theorem verifyBasicAuth_get (m : RMatch) (c : Caches) (domain path authHeader : String)
    (conf : List (String × List (String × String))) (b : Bool) (c' : Caches)
    (heq : verifyBasicAuth m c domain path authHeader conf = .ok (b, c')) :
    alGet? c'.verifyBasicAuthCache (authHeader ++ "\t" ++ domain ++ "\t" ++ path) = some b ∧
      c'.matchHostCache = c.matchHostCache ∧
      c'.matchNoAuthPathCache = c.matchNoAuthPathCache ∧
      c'.matchBasicAuthPathCache = c.matchBasicAuthPathCache ∧
      c'.matchBearerAuthPathCache = c.matchBearerAuthPathCache := by
  unfold verifyBasicAuth at heq
  by_cases hc : alContains c.verifyBasicAuthCache (authHeader ++ "\t" ++ domain ++ "\t" ++ path) = true
  · simp only [hc, if_true] at heq
    obtain ⟨t, ht⟩ : ∃ t, alGet? c.verifyBasicAuthCache (authHeader ++ "\t" ++ domain ++ "\t" ++ path) = some t := by
      unfold alContains at hc
      cases hg : alGet? c.verifyBasicAuthCache (authHeader ++ "\t" ++ domain ++ "\t" ++ path) with
      | none => rw [hg] at hc; simp at hc
      | some t => exact ⟨t, rfl⟩
    rw [show alGetD c.verifyBasicAuthCache (authHeader ++ "\t" ++ domain ++ "\t" ++ path) false = t by
      unfold alGetD; rw [ht]; rfl] at heq
    obtain ⟨h1, h2⟩ := Prod.mk.injEq .. ▸ (Except.ok.inj heq)
    subst h2
    exact ⟨by rw [ht, h1], rfl, rfl, rfl, rfl⟩
  · rw [Bool.not_eq_true] at hc
    simp only [hc, Bool.false_eq_true, if_false] at heq
    have hbase := alGet?_insert_self c.verifyBasicAuthCache
      (authHeader ++ "\t" ++ domain ++ "\t" ++ path) false
    rw [show alGetD (alInsert c.verifyBasicAuthCache (authHeader ++ "\t" ++ domain ++ "\t" ++ path) false)
        (authHeader ++ "\t" ++ domain ++ "\t" ++ path) false = false by
      unfold alGetD; rw [hbase]; rfl] at heq
    split at heq
    · obtain ⟨h1, h2⟩ := Prod.mk.injEq .. ▸ (Except.ok.inj heq)
      subst h2
      exact ⟨by rw [hbase, h1], rfl, rfl, rfl, rfl⟩
    · split at heq
      · obtain ⟨h1, h2⟩ := Prod.mk.injEq .. ▸ (Except.ok.inj heq)
        subst h2
        exact ⟨by rw [hbase, h1], rfl, rfl, rfl, rfl⟩
      · split at heq
        · exact absurd heq (by simp)
        · split at heq
          · have hins := alGet?_insert_self
              (alInsert c.verifyBasicAuthCache (authHeader ++ "\t" ++ domain ++ "\t" ++ path) false)
              (authHeader ++ "\t" ++ domain ++ "\t" ++ path) true
            rw [show alGetD (alInsert (alInsert c.verifyBasicAuthCache (authHeader ++ "\t" ++ domain ++ "\t" ++ path) false)
                (authHeader ++ "\t" ++ domain ++ "\t" ++ path) true)
                (authHeader ++ "\t" ++ domain ++ "\t" ++ path) false = true by
              unfold alGetD; rw [hins]; rfl] at heq
            obtain ⟨h1, h2⟩ := Prod.mk.injEq .. ▸ (Except.ok.inj heq)
            subst h2
            exact ⟨by rw [hins, h1], rfl, rfl, rfl, rfl⟩
          · obtain ⟨h1, h2⟩ := Prod.mk.injEq .. ▸ (Except.ok.inj heq)
            subst h2
            refine ⟨?_, rfl, rfl, rfl, rfl⟩
            subst h1
            unfold alGetD
            rw [hbase]
            rfl

/-! ## Replay stability of the decision path -/

/-- Any evaluation that returns a verdict leaves the caches in a state
from which re-evaluating the same `(domain, path, authHeader)` replays
every branch from the cache: same verdict, caches unchanged.  (Helper
for the idempotence claim; stated for an arbitrary starting cache
state, so it covers both the cold and the warm evaluation.) -/
theorem noRoute_replay (m : RMatch) (holder : Holder) (c : Caches)
    (domain path authHeader : String) (v : Verdict) (c₁ : Caches)
    (h : noRoute m holder c domain path authHeader = .ok (v, c₁)) :
    noRoute m holder c₁ domain path authHeader = .ok (v, c₁) := by
  unfold noRoute at h
  split at h
  next host allowed c₂ hM =>
    obtain ⟨hMget, _, _, _, _⟩ := matchHost_get m c domain holder.getHosts host allowed c₂ hM
    split at h
    · next hA =>
      split at h
      next noAuth c₃ hN =>
        obtain ⟨hNget, gH, gB, gV, gBr⟩ :=
          matchNoAuthPath_get m c₂ domain path (holder.getNoAuthPaths host) noAuth c₃ hN
        split at h
        · next hNA =>
          obtain ⟨hv, hc1⟩ := Prod.mk.injEq .. ▸ (Except.ok.inj h)
          subst hv; subst hc1
          have s1 : alGet? c₃.matchHostCache domain = some ⟨host, allowed⟩ := by
            rw [gH]; exact hMget
          unfold noRoute
          rw [matchHost_hit m c₃ domain holder.getHosts ⟨host, allowed⟩ s1]
          simp only [hA, if_true]
          rw [matchNoAuthPath_hit m c₃ domain path (holder.getNoAuthPaths host) noAuth hNget]
          simp only [hNA, if_true]
        · next hNA =>
          split at h
          next isBasic c₄ hB =>
            obtain ⟨hBget, kH, kN, kV, kBr⟩ :=
              matchBasicAuthPath_get m c₃ domain path (holder.getBasicAuthConf host) isBasic c₄ hB
            split at h
            · next hIB =>
              -- basic branch: split on the verifyBasicAuth result
              split at h
              · -- .error: contradiction with h : .error e = .ok _
                exact absurd h (by simp)
              · next c₅ hV =>
                obtain ⟨hVget, lH, lN, lB, lBr⟩ :=
                  verifyBasicAuth_get m c₄ domain path authHeader (holder.getBasicAuthConf host) true c₅ hV
                obtain ⟨hv, hc1⟩ := Prod.mk.injEq .. ▸ (Except.ok.inj h)
                subst hv; subst hc1
                have s1 : alGet? c₅.matchHostCache domain = some ⟨host, allowed⟩ := by
                  rw [lH, kH, gH]; exact hMget
                have s2 : alGet? c₅.matchNoAuthPathCache (domain ++ "\t" ++ path) = some noAuth := by
                  rw [lN, kN]; exact hNget
                have s3 : alGet? c₅.matchBasicAuthPathCache (domain ++ "\t" ++ path) = some isBasic := by
                  rw [lB]; exact hBget
                unfold noRoute
                rw [matchHost_hit m c₅ domain holder.getHosts ⟨host, allowed⟩ s1]
                simp only [hA, if_true]
                rw [matchNoAuthPath_hit m c₅ domain path (holder.getNoAuthPaths host) noAuth s2]
                simp only [Bool.not_eq_true] at hNA
                simp only [hNA, Bool.false_eq_true, if_false]
                rw [matchBasicAuthPath_hit m c₅ domain path (holder.getBasicAuthConf host) isBasic s3]
                simp only [hIB, if_true]
                rw [verifyBasicAuth_hit m c₅ domain path authHeader (holder.getBasicAuthConf host) true hVget]
              · next c₅ hV =>
                obtain ⟨hVget, lH, lN, lB, lBr⟩ :=
                  verifyBasicAuth_get m c₄ domain path authHeader (holder.getBasicAuthConf host) false c₅ hV
                obtain ⟨hv, hc1⟩ := Prod.mk.injEq .. ▸ (Except.ok.inj h)
                subst hv; subst hc1
                have s1 : alGet? c₅.matchHostCache domain = some ⟨host, allowed⟩ := by
                  rw [lH, kH, gH]; exact hMget
                have s2 : alGet? c₅.matchNoAuthPathCache (domain ++ "\t" ++ path) = some noAuth := by
                  rw [lN, kN]; exact hNget
                have s3 : alGet? c₅.matchBasicAuthPathCache (domain ++ "\t" ++ path) = some isBasic := by
                  rw [lB]; exact hBget
                unfold noRoute
                rw [matchHost_hit m c₅ domain holder.getHosts ⟨host, allowed⟩ s1]
                simp only [hA, if_true]
                rw [matchNoAuthPath_hit m c₅ domain path (holder.getNoAuthPaths host) noAuth s2]
                simp only [Bool.not_eq_true] at hNA
                simp only [hNA, Bool.false_eq_true, if_false]
                rw [matchBasicAuthPath_hit m c₅ domain path (holder.getBasicAuthConf host) isBasic s3]
                simp only [hIB, if_true]
                rw [verifyBasicAuth_hit m c₅ domain path authHeader (holder.getBasicAuthConf host) false hVget]
            · next hIB =>
              split at h
              · next hLen =>
                obtain ⟨hv, hc1⟩ := Prod.mk.injEq .. ▸ (Except.ok.inj h)
                subst hv; subst hc1
                have s1 : alGet? c₄.matchHostCache domain = some ⟨host, allowed⟩ := by
                  rw [kH, gH]; exact hMget
                have s2 : alGet? c₄.matchNoAuthPathCache (domain ++ "\t" ++ path) = some noAuth := by
                  rw [kN]; exact hNget
                have s3 : alGet? c₄.matchBasicAuthPathCache (domain ++ "\t" ++ path) = some isBasic :=
                  hBget
                unfold noRoute
                rw [matchHost_hit m c₄ domain holder.getHosts ⟨host, allowed⟩ s1]
                simp only [hA, if_true]
                rw [matchNoAuthPath_hit m c₄ domain path (holder.getNoAuthPaths host) noAuth s2]
                simp only [Bool.not_eq_true] at hNA
                simp only [hNA, Bool.false_eq_true, if_false]
                rw [matchBasicAuthPath_hit m c₄ domain path (holder.getBasicAuthConf host) isBasic s3]
                simp only [Bool.not_eq_true] at hIB
                simp only [hIB, Bool.false_eq_true, if_false, hLen, if_true]
              · next hLen =>
                split at h
                · next hTok =>
                  obtain ⟨hv, hc1⟩ := Prod.mk.injEq .. ▸ (Except.ok.inj h)
                  subst hv; subst hc1
                  have s1 : alGet? c₄.matchHostCache domain = some ⟨host, allowed⟩ := by
                    rw [kH, gH]; exact hMget
                  have s2 : alGet? c₄.matchNoAuthPathCache (domain ++ "\t" ++ path) = some noAuth := by
                    rw [kN]; exact hNget
                  unfold noRoute
                  rw [matchHost_hit m c₄ domain holder.getHosts ⟨host, allowed⟩ s1]
                  simp only [hA, if_true]
                  rw [matchNoAuthPath_hit m c₄ domain path (holder.getNoAuthPaths host) noAuth s2]
                  simp only [Bool.not_eq_true] at hNA
                  simp only [hNA, Bool.false_eq_true, if_false]
                  rw [matchBasicAuthPath_hit m c₄ domain path (holder.getBasicAuthConf host) isBasic hBget]
                  simp only [Bool.not_eq_true] at hIB
                  simp only [hIB, Bool.false_eq_true, if_false, hLen, if_false, hTok]
                · next tok hTok =>
                  split at h
                  · next hHas =>
                    obtain ⟨hv, hc1⟩ := Prod.mk.injEq .. ▸ (Except.ok.inj h)
                    subst hv; subst hc1
                    have s1 : alGet? c₄.matchHostCache domain = some ⟨host, allowed⟩ := by
                      rw [kH, gH]; exact hMget
                    have s2 : alGet? c₄.matchNoAuthPathCache (domain ++ "\t" ++ path) = some noAuth := by
                      rw [kN]; exact hNget
                    unfold noRoute
                    rw [matchHost_hit m c₄ domain holder.getHosts ⟨host, allowed⟩ s1]
                    simp only [hA, if_true]
                    rw [matchNoAuthPath_hit m c₄ domain path (holder.getNoAuthPaths host) noAuth s2]
                    simp only [Bool.not_eq_true] at hNA
                    simp only [hNA, Bool.false_eq_true, if_false]
                    rw [matchBasicAuthPath_hit m c₄ domain path (holder.getBasicAuthConf host) isBasic hBget]
                    simp only [Bool.not_eq_true] at hIB
                    simp only [hIB, Bool.false_eq_true, if_false, hLen, if_false, hTok, hHas, if_true]
                  · next hHas =>
                    split at h
                    next pathOk c₅ hBr =>
                      obtain ⟨hBrget, nH, nN, nB, nV⟩ :=
                        matchBearerAuthPath_get m c₄ domain path tok
                          (holder.getAllowedPaths host tok) pathOk c₅ hBr
                      have s1 : alGet? c₅.matchHostCache domain = some ⟨host, allowed⟩ := by
                        rw [nH, kH, gH]; exact hMget
                      have s2 : alGet? c₅.matchNoAuthPathCache (domain ++ "\t" ++ path) = some noAuth := by
                        rw [nN, kN]; exact hNget
                      have s3 : alGet? c₅.matchBasicAuthPathCache (domain ++ "\t" ++ path) = some isBasic := by
                        rw [nB]; exact hBget
                      split at h
                      · next hPO =>
                        obtain ⟨hv, hc1⟩ := Prod.mk.injEq .. ▸ (Except.ok.inj h)
                        subst hv; subst hc1
                        unfold noRoute
                        rw [matchHost_hit m c₅ domain holder.getHosts ⟨host, allowed⟩ s1]
                        simp only [hA, if_true]
                        rw [matchNoAuthPath_hit m c₅ domain path (holder.getNoAuthPaths host) noAuth s2]
                        simp only [Bool.not_eq_true] at hNA
                        simp only [hNA, Bool.false_eq_true, if_false]
                        rw [matchBasicAuthPath_hit m c₅ domain path (holder.getBasicAuthConf host) isBasic s3]
                        simp only [Bool.not_eq_true] at hIB
                        simp only [hIB, Bool.false_eq_true, if_false, hLen, if_false, hTok, hHas, if_false]
                        rw [matchBearerAuthPath_hit m c₅ domain path tok (holder.getAllowedPaths host tok) pathOk hBrget]
                        simp only [hPO, if_true]
                      · next hPO =>
                        obtain ⟨hv, hc1⟩ := Prod.mk.injEq .. ▸ (Except.ok.inj h)
                        subst hv; subst hc1
                        unfold noRoute
                        rw [matchHost_hit m c₅ domain holder.getHosts ⟨host, allowed⟩ s1]
                        simp only [hA, if_true]
                        rw [matchNoAuthPath_hit m c₅ domain path (holder.getNoAuthPaths host) noAuth s2]
                        simp only [Bool.not_eq_true] at hNA
                        simp only [hNA, Bool.false_eq_true, if_false]
                        rw [matchBasicAuthPath_hit m c₅ domain path (holder.getBasicAuthConf host) isBasic s3]
                        simp only [Bool.not_eq_true] at hIB
                        simp only [hIB, Bool.false_eq_true, if_false, hLen, if_false, hTok, hHas, if_false]
                        rw [matchBearerAuthPath_hit m c₅ domain path tok (holder.getAllowedPaths host tok) pathOk hBrget]
                        simp only [Bool.not_eq_true] at hPO
                        simp only [hPO, Bool.false_eq_true, if_false]
    · next hA =>
      obtain ⟨hv, hc1⟩ := Prod.mk.injEq .. ▸ (Except.ok.inj h)
      subst hv; subst hc1
      unfold noRoute
      rw [matchHost_hit m c₂ domain holder.getHosts ⟨host, allowed⟩ hMget]
      simp only [Bool.not_eq_true] at hA
      simp only [hA, Bool.false_eq_true, if_false]

/-! ## Host-scan characterizations -/

/-- A pair equals the pair of its first component and its second
projection. -/
theorem eq_pair_of_fst {α β : Type} (x : α × β) (a : α) (h : x.1 = a) :
    x = (a, x.2) := by
  rw [← h]

/-- When no configured host pattern matches the domain, the scan caches
and returns `{"", false}`. -/
theorem matchHost_nomatch (m : RMatch) (c : Caches) (domain : String) (hosts : List String)
    (hc : alContains c.matchHostCache domain = false)
    (hno : ∀ hp ∈ hosts, m hp domain = false) :
    matchHost m c domain hosts
      = (("", false),
         { c with matchHostCache := alInsert c.matchHostCache domain ⟨"", false⟩ }) := by
  unfold matchHost
  simp only [hc, Bool.false_eq_true, if_false]
  rw [foldl_ite_id (fun host => m host domain)
    (fun cache host => alInsert cache domain ⟨host, true⟩) hosts
    (alInsert c.matchHostCache domain ⟨"", false⟩) hno]
  unfold alGetD
  rw [alGet?_insert_self]
  rfl

/-- The host the scan selects is the *last* matching pattern in document
order: any match after which no later pattern matches wins. -/
theorem matchHost_last (m : RMatch) (c : Caches) (domain : String)
    (pre : List String) (h : String) (post : List String)
    (hc : alContains c.matchHostCache domain = false)
    (hm : m h domain = true) (hpost : ∀ x ∈ post, m x domain = false) :
    (matchHost m c domain (pre ++ h :: post)).1 = (h, true) := by
  unfold matchHost
  simp only [hc, Bool.false_eq_true, if_false]
  have hget := alGet?_foldl_host domain m (pre ++ h :: post) _ _
    (alGet?_insert_self c.matchHostCache domain ⟨"", false⟩)
  unfold alGetD
  rw [hget]
  rw [List.foldl_append]
  simp only [List.foldl_cons, hm, if_true]
  rw [foldl_ite_id (fun host => m host domain)
    (fun _ host => (⟨host, true⟩ : HostTuple)) post ⟨h, true⟩ hpost]
  rfl

/-- With no matching host the decision is `DomainDenied`, whatever the
path and header. -/
theorem noRoute_domainDenied (m : RMatch) (holder : Holder)
    (domain path authHeader : String)
    (hno : ∀ hp ∈ holder.getHosts, m hp domain = false) :
    noRouteV m holder emptyCaches domain path authHeader = .ok .DomainDenied := by
  unfold noRouteV noRoute
  rw [matchHost_nomatch m emptyCaches domain holder.getHosts rfl hno]
  rfl

/-! ## The bearer header -/

/-- Applying `bearerReStr` to a header of the exact shape
`"Bearer " ++ T` either fails (empty token or token with a newline) or
captures exactly `T`. -/
theorem bearerHeaderMatch_bearer (T : String) :
    bearerHeaderMatch ("Bearer " ++ T) = none
      ∨ bearerHeaderMatch ("Bearer " ++ T) = some T := by
  have hstrip : stripCI "bearer ".data ("Bearer " ++ T).data = some T.data := rfl
  unfold bearerHeaderMatch
  rw [hstrip]
  by_cases hre : (T.data.isEmpty || T.data.contains '\n') = true
  · left
    simp only [hre, if_true]
  · right
    rw [Bool.not_eq_true] at hre
    simp only [hre, Bool.false_eq_true, if_false]

/-- A header of shape `"Bearer " ++ T` is never the empty string. -/
theorem bearer_header_length_pos (T : String) : ("Bearer " ++ T).length ≠ 0 := by
  rw [String.length_append]
  have h7 : "Bearer ".length = 7 := rfl
  omega

/-! ## The parse: one bad record fails the whole document -/

theorem mapM_loop_ok_forall {α β : Type} (f : α → Except String β) (l : List α)
    (acc ys : List β) (h : List.mapM.loop f l acc = .ok ys) :
    ∀ x ∈ l, ∃ y, f x = .ok y := by
  induction l generalizing acc with
  | nil => intro x hx; cases hx
  | cons a t ih =>
    intro x hx
    rw [List.mapM.loop] at h
    cases hfa : f a with
    | error e =>
      rw [hfa] at h
      simp only [bind, Except.bind] at h
      cases h
    | ok b =>
      rw [hfa] at h
      simp only [bind, Except.bind] at h
      rcases List.mem_cons.mp hx with hxa | hxt
      · exact ⟨b, hxa ▸ hfa⟩
      · exact ih (b :: acc) h x hxt

theorem mapM_ok_forall {α β : Type} (f : α → Except String β) (l : List α)
    (ys : List β) (h : l.mapM f = .ok ys) : ∀ x ∈ l, ∃ y, f x = .ok y :=
  mapM_loop_ok_forall f l [] ys h

/-! ## Tokens whose compiled path list is empty never enter the holder -/

theorem addBearerToken_hasToken_false (compileOk : String → Bool)
    (hsHost host T : String) (acc : Holder) (bt : BearerTokensV)
    (hacc : acc.hasToken host T = false)
    (hbt : hsHost = host → bt.token = T → bt.rawAllowedPaths.filter compileOk = []) :
    (addBearerToken compileOk hsHost acc bt).hasToken host T = false := by
  unfold addBearerToken
  by_cases hsl : (bt.rawAllowedPaths.filter compileOk).length > 0
  · simp only [if_pos hsl]
    unfold Holder.hasToken at hacc ⊢
    by_cases hh : hsHost = host
    · subst hh
      rw [alGet?_insert_self]
      simp only [Option.getD_some]
      have htok : T ≠ bt.token := by
        intro he
        rw [hbt rfl he.symm] at hsl
        simp at hsl
      rw [alGet?_insert_ne _ _ _ _ htok]
      exact hacc
    · rw [alGet?_insert_ne _ _ _ _ (fun he => hh he.symm)]
      exact hacc
  · simp only [if_neg hsl]
    exact hacc

theorem foldl_addBasicAuth_btap (host : String) (l : List BasicAuthsV) (acc : Holder) :
    (l.foldl (addBasicAuth host) acc).bearerTokenAllowedPaths
      = acc.bearerTokenAllowedPaths := by
  induction l generalizing acc with
  | nil => rfl
  | cons x t ih =>
    rw [List.foldl_cons, ih]
    rfl

theorem processHostSettings_hasToken_false (compileOk : String → Bool)
    (host T : String) (acc : Holder) (hs : HostSettingsV)
    (hacc : acc.hasToken host T = false)
    (hhs : hs.host = host → ∀ bt ∈ hs.settings.bearerTokens,
        bt.token = T → bt.rawAllowedPaths.filter compileOk = []) :
    (processHostSettings compileOk acc hs).hasToken host T = false := by
  unfold processHostSettings
  show ((hs.settings.basicAuths.foldl (addBasicAuth hs.host)
      (hs.settings.bearerTokens.foldl (addBearerToken compileOk hs.host)
        { acc with hosts := acc.hosts ++ [hs.host] })).bearerTokenAllowedPaths
      |> fun btap => (alGet? ((alGet? btap host).getD []) T).isSome) = false
  rw [foldl_addBasicAuth_btap]
  exact foldl_preserve (fun a => a.hasToken host T = false)
    (addBearerToken compileOk hs.host) hs.settings.bearerTokens
    { acc with hosts := acc.hosts ++ [hs.host] } hacc
    (fun a bt hmem ha =>
      addBearerToken_hasToken_false compileOk hs.host host T a bt ha
        (fun hhost htok => hhs hhost bt hmem htok))

theorem buildHolder_hasToken_false (compileOk : String → Bool)
    (doc : List HostSettingsV) (host T : String)
    (hdoc : ∀ hs ∈ doc, hs.host = host → ∀ bt ∈ hs.settings.bearerTokens,
        bt.token = T → bt.rawAllowedPaths.filter compileOk = []) :
    (buildHolder compileOk doc).hasToken host T = false := by
  unfold buildHolder
  exact foldl_preserve (fun a => a.hasToken host T = false)
    (processHostSettings compileOk) doc emptyHolder rfl
    (fun acc hs hmem hacc =>
      processHostSettings_hasToken_false compileOk host T acc hs hacc (hdoc hs hmem))

/-! ## Claim C6 -/

/-- C6: for every matched host, if the request path matches any pattern
in that host's `noAuthPaths` then the verdict is `NoAuthGranted`, for
every possible `authHeader` value including empty and malformed headers. -/
theorem noauth_path_granted (m : RMatch) (holder : Holder)
    (domain path authHeader host : String)
    (hsel : (matchHost m emptyCaches domain holder.getHosts).1 = (host, true))
    (hnoauth : (holder.getNoAuthPaths host).any (fun pat => m pat path) = true) :
    noRouteV m holder emptyCaches domain path authHeader = .ok .NoAuthGranted := by
  have hM : matchHost m emptyCaches domain holder.getHosts
      = ((host, true), (matchHost m emptyCaches domain holder.getHosts).2) :=
    eq_pair_of_fst _ _ hsel
  obtain ⟨_, _, _, _, fN⟩ := matchHost_get m emptyCaches domain holder.getHosts host true _ hM
  have hcontains : alContains (matchHost m emptyCaches domain holder.getHosts).2.matchNoAuthPathCache
      (domain ++ "\t" ++ path) = false := by
    rw [fN]; rfl
  have hval : (matchNoAuthPath m (matchHost m emptyCaches domain holder.getHosts).2
      domain path (holder.getNoAuthPaths host)).1 = true := by
    rw [matchNoAuthPath_miss m _ domain path _ hcontains]; exact hnoauth
  have hN : matchNoAuthPath m (matchHost m emptyCaches domain holder.getHosts).2
      domain path (holder.getNoAuthPaths host)
      = (true, (matchNoAuthPath m (matchHost m emptyCaches domain holder.getHosts).2
          domain path (holder.getNoAuthPaths host)).2) :=
    eq_pair_of_fst _ _ hval
  unfold noRouteV noRoute
  rw [hM]
  simp only [if_true]
  rw [hN]
  simp only [if_true]
  rfl

/-- Fixture for the C6 witness: one host whose `noAuthPaths` carries a
pattern matching the request path. -/
def mC6 : RMatch := fun pat subj =>
  (pat == "^d$" && subj == "d") || (pat == "^/open/.*$" && subj == "/open/x")

def holderC6 : Holder :=
  { hosts := ["^d$"], bearerTokenAllowedPaths := [], bearerTokens := [],
    basicAuthPaths := [], noAuthPaths := [("^d$", ["^/open/.*$"])] }

theorem noauth_path_granted_witness :
    noRouteV mC6 holderC6 emptyCaches "d" "/open/x" "Basic %%%garbage" = .ok .NoAuthGranted :=
  noauth_path_granted mC6 holderC6 "d" "/open/x" "Basic %%%garbage" "^d$" (by decide) (by decide)

/-! ## Claim C7 -/

/-- C7: for every `(domain, path)` pair such that no `HostPolicy`
`hostPattern` in the current policy document matches the domain, the
decision engine returns `DomainDenied`, for every `authHeader` value. -/
theorem unmatched_domain_denied (m : RMatch) (holder : Holder)
    (domain path authHeader : String)
    (hno : ∀ hp ∈ holder.getHosts, m hp domain = false) :
    noRouteV m holder emptyCaches domain path authHeader = .ok .DomainDenied :=
  noRoute_domainDenied m holder domain path authHeader hno

def mC7 : RMatch := fun pat subj => pat == "^api\\..+$" && subj == "api.example.com"

def holderC7 : Holder :=
  { hosts := ["^api\\..+$"], bearerTokenAllowedPaths := [], bearerTokens := [],
    basicAuthPaths := [], noAuthPaths := [("^api\\..+$", ["/x"])] }

theorem unmatched_domain_denied_witness :
    noRouteV mC7 holderC7 emptyCaches "other.com" "/x" "Bearer TOKEN1" = .ok .DomainDenied :=
  unmatched_domain_denied mC7 holderC7 "other.com" "/x" "Bearer TOKEN1" (by decide)

/-! ## Claim C8 -/

/-- C8: a structural violation in any record (missing `token`, missing
`username`/`password`, `allowed_paths` absent or not a list) fails the
entire document parse; the loader falls back to the empty holder, and
every subsequent request receives `DomainDenied`. -/
theorem structural_violation_denies_all (compileOk : String → Bool) (holder0 : Holder)
    (records : List HostSettingsP)
    (hbad : ∃ r ∈ records, ∃ e, hostSettingsUnmarshal r = .error e) :
    makeHolder compileOk holder0 (.arr records) = emptyHolder ∧
      ∀ (m : RMatch) (domain path authHeader : String),
        noRouteV m (makeHolder compileOk holder0 (.arr records)) emptyCaches
          domain path authHeader = .ok .DomainDenied := by
  obtain ⟨r, hr, e, herr⟩ := hbad
  have hfail : ∀ ys, parseDoc (.arr records) ≠ .ok ys := by
    intro ys hok
    unfold parseDoc at hok
    obtain ⟨y, hy⟩ := mapM_ok_forall _ _ _ hok r hr
    rw [herr] at hy
    cases hy
  have hmk : makeHolder compileOk holder0 (.arr records) = emptyHolder := by
    unfold makeHolder
    cases hp : parseDoc (.arr records) with
    | ok ys => exact absurd hp (hfail ys)
    | error e => rfl
  refine ⟨hmk, fun m domain path authHeader => ?_⟩
  rw [hmk]
  exact noRoute_domainDenied m emptyHolder domain path authHeader
    (fun hp h => absurd h (List.not_mem_nil hp))

/-- Fixture for the C8 witness: a document whose only record has a
bearer entry with no `token` field. -/
def recordC8 : HostSettingsP :=
  { host := .val "^h$",
    settings := .val
      { bearerTokens := .val [{ token := .absent, rawAllowedPaths := .val ["^/x$"] }],
        basicAuths := .val [],
        noAuths := .val (.val []) } }

def mC8 : RMatch := fun pat subj => pat == subj

theorem structural_violation_denies_all_witness :
    makeHolder (fun _ => true) emptyHolder (.arr [recordC8]) = emptyHolder ∧
      noRouteV mC8 (makeHolder (fun _ => true) emptyHolder (.arr [recordC8])) emptyCaches
        "h" "/x" "" = .ok .DomainDenied := by
  have h := structural_violation_denies_all (fun _ => true) emptyHolder [recordC8]
    ⟨recordC8, List.mem_cons_self recordC8 [], "bearer_tokens.token is required", rfl⟩
  exact ⟨h.1, h.2 mC8 "h" "/x" ""⟩

/-! ## Claim C3 -/

/-- The fixtures for C3: a well-formed document that loads into a
non-empty holder. -/
def compileAllC3 : String → Bool := fun _ => true

def goodDocC3 : List HostSettingsV :=
  [{ host := "^d$",
     settings := { bearerTokens := [], basicAuths := [], noAuths := ["^/p$"] } }]

def goodHolderC3 : Holder := buildHolder compileAllC3 goodDocC3

def mC3 : RMatch := fun pat subj =>
  (pat == "^d$" && subj == "d") || (pat == "^/p$" && subj == "/p")

/-- C3, counterexample: after a good load, a failed reload (malformed
file content, or the file no longer readable) does *not* leave the
previous document in place: `loadFile` unconditionally rebuilds the
holder and the result is the empty holder, flipping a formerly granted
request to `DomainDenied`. -/
theorem reload_keeps_last_good_counterexample :
    loadFile compileAllC3 goodHolderC3 (.content .malformed) = emptyHolder ∧
      loadFile compileAllC3 goodHolderC3 .unreadable = emptyHolder ∧
      goodHolderC3 ≠ emptyHolder ∧
      noRouteV mC3 goodHolderC3 emptyCaches "d" "/p" "" = .ok .NoAuthGranted ∧
      noRouteV mC3 emptyHolder emptyCaches "d" "/p" "" = .ok .DomainDenied :=
  ⟨rfl, rfl, by decide, rfl, rfl⟩

/-- C3, amended: a failed reload (file unreadable or malformed content)
replaces the previously loaded document with the *empty* one — the
holder is wiped, and every subsequent decision sees an empty policy,
i.e. `DomainDenied`. -/
theorem failed_reload_wipes_to_empty (compileOk : String → Bool) (holder : Holder)
    (fr : FileRead)
    (hfail : fr = FileRead.unreadable
      ∨ ∃ raw e, fr = FileRead.content raw ∧ parseDoc raw = .error e) :
    loadFile compileOk holder fr = emptyHolder ∧
      ∀ (m : RMatch) (domain path authHeader : String),
        noRouteV m (loadFile compileOk holder fr) emptyCaches domain path authHeader
          = .ok .DomainDenied := by
  have hempty : loadFile compileOk holder fr = emptyHolder := by
    rcases hfail with h1 | ⟨raw, e, hfr, herr⟩
    · subst h1; rfl
    · subst hfr
      unfold loadFile makeHolder
      show (match parseDoc raw with
        | Except.ok l => buildHolder compileOk l
        | Except.error _ => emptyHolder) = emptyHolder
      rw [herr]
  refine ⟨hempty, fun m domain path authHeader => ?_⟩
  rw [hempty]
  exact noRoute_domainDenied m emptyHolder domain path authHeader
    (fun hp h => absurd h (List.not_mem_nil hp))

theorem failed_reload_wipes_to_empty_witness :
    loadFile compileAllC3 goodHolderC3 (.content .malformed) = emptyHolder ∧
      noRouteV mC3 (loadFile compileAllC3 goodHolderC3 (.content .malformed)) emptyCaches
        "d" "/p" "" = .ok .DomainDenied := by
  have h := failed_reload_wipes_to_empty compileAllC3 goodHolderC3 (.content .malformed)
    (Or.inr ⟨.malformed, "json: cannot unmarshal", rfl, rfl⟩)
  exact ⟨h.1, h.2 mC3 "d" "/p" ""⟩

/-! ## Claim C9 -/

/-- C9: against a fixed, unchanged policy document, evaluating the same
`(domain, path, authHeader)` twice yields the same verdict both times —
the first (cold) evaluation misses every cache, the second hits exactly
the entries the first wrote, returns the same verdict and leaves the
caches unchanged. -/
theorem decision_idempotent (m : RMatch) (holder : Holder)
    (domain path authHeader : String) (v : Verdict) (c₁ : Caches)
    (hcold : noRoute m holder emptyCaches domain path authHeader = .ok (v, c₁)) :
    noRoute m holder c₁ domain path authHeader = .ok (v, c₁) :=
  noRoute_replay m holder emptyCaches domain path authHeader v c₁ hcold

def mC9 : RMatch := fun pat subj => pat == "^d$" && subj == "d"

def holderC9 : Holder :=
  { hosts := ["^d$"], bearerTokenAllowedPaths := [], bearerTokens := [],
    basicAuthPaths := [], noAuthPaths := [("^d$", [])] }

/-- The cache state the cold C9 evaluation produces. -/
def cachesC9 : Caches :=
  { matchHostCache := [("d", ⟨"^d$", true⟩)],
    matchBasicAuthPathCache := [("d\t/p", false)],
    verifyBasicAuthCache := [],
    matchBearerAuthPathCache := [],
    matchNoAuthPathCache := [("d\t/p", false)] }

theorem decision_idempotent_witness :
    noRoute mC9 holderC9 cachesC9 "d" "/p" "" = .ok (.BearerHeaderMissing, cachesC9) :=
  decision_idempotent mC9 holderC9 "d" "/p" "" .BearerHeaderMissing cachesC9 rfl

/-! ## Claim C10 -/

/-- C10: in the variant router of `handler.go`, every request whose URL
path matches the compiled `staticReStr` pattern `^.*/static/.*$` is
granted with status 200 before the basic-auth and bearer checks run, for
every `authHeader` value, every configuration and every cache state — an
authentication bypass. -/
theorem static_paths_bypass_auth (m : RMatch) (holder : VHolder) (c : VCaches)
    (path authHeader : String) (h : staticMatch path = true) :
    vNoRoute m holder c path authHeader = .ok (.StaticGranted, c) ∧
      vStatus .StaticGranted = 200 := by
  refine ⟨?_, rfl⟩
  unfold vNoRoute
  simp only [h, if_true]

def mC10 : RMatch := fun pat subj => pat == subj

def holderC10 : VHolder :=
  { bearerTokenAllowdPathes := [("TOKEN1", ["^/x$"])],
    basicAuthPathes := [("^/a/static/b\\.png$", [("user1", "password1")])] }

theorem static_paths_bypass_auth_witness :
    vNoRoute mC10 holderC10 ⟨[], [], []⟩ "/a/static/b.png" "" = .ok (.StaticGranted, ⟨[], [], []⟩) ∧
      vStatus .StaticGranted = 200 :=
  static_paths_bypass_auth mC10 holderC10 ⟨[], [], []⟩ "/a/static/b.png" "" (by decide)

/-! ## Claim C1 -/

def mC1 : RMatch := fun pat subj =>
  (pat == "^h$" && subj == "h") || (pat == "^/p$" && subj == "/p")

def holderC1 : Holder :=
  { hosts := ["^h$"], bearerTokenAllowedPaths := [], bearerTokens := [],
    basicAuthPaths := [("^h$", [("^/p$", [("user1", "password1")])])],
    noAuthPaths := [] }

/-- C1, the code bug: at matched host `h` with basic-guarded path `/p`
and header `Basic bm9jb2xvbg==` (a well-formed Basic header whose
base64 payload decodes to `nocolon`, a credential string with no colon),
`basicUserReStr` produces no match, and `verifyBasicAuth` indexes
`userMatches[0]` on the empty match list: the decision path raises an
index-out-of-range runtime fault (`.error ()`) instead of returning the
authentication-failure verdict `BasicAuthRequired` that the claim
requires. -/
theorem noRoute_faults_on_colonless_basic_credentials :
    basicHeaderMatch "Basic bm9jb2xvbg==" = some "bm9jb2xvbg==" ∧
      base64Decode "bm9jb2xvbg==" = some (strBytes "nocolon") ∧
      basicUserMatch (strBytes "nocolon") = none ∧
      verifyBasicAuth mC1 emptyCaches "h" "/p" "Basic bm9jb2xvbg=="
        (holderC1.getBasicAuthConf "^h$") = .error () ∧
      noRoute mC1 holderC1 emptyCaches "h" "/p" "Basic bm9jb2xvbg==" = .error () :=
  ⟨rfl, rfl, rfl, rfl, rfl⟩

/-! ## Claim C2 -/

def mC2 : RMatch := fun pat subj =>
  ((pat == "hostA" || pat == "hostB") && subj == "d")
    || (pat == "^/p$" && subj == "/p")

def holderC2 : Holder :=
  { hosts := ["hostA", "hostB"], bearerTokenAllowedPaths := [], bearerTokens := [],
    basicAuthPaths := [], noAuthPaths := [("hostA", ["^/p$"])] }

def holderC2first : Holder :=
  { hosts := ["hostA"], bearerTokenAllowedPaths := [], bearerTokens := [],
    basicAuthPaths := [], noAuthPaths := [("hostA", ["^/p$"])] }

/-- C2, counterexample: with two host patterns `hostA` and `hostB` both
matching domain `d` (in that document order), the engine selects
`hostB` — the *last* match, not the first: the request `/p` is decided
against `hostB`'s empty rule set (`BearerHeaderMissing`), while the
first matching policy `hostA` alone would grant it through its
`noAuthPaths` (`NoAuthGranted`). -/
theorem first_host_match_counterexample :
    mC2 "hostA" "d" = true ∧
      (matchHost mC2 emptyCaches "d" holderC2.getHosts).1 = ("hostB", true) ∧
      noRouteV mC2 holderC2 emptyCaches "d" "/p" "" = .ok .BearerHeaderMissing ∧
      noRouteV mC2 holderC2first emptyCaches "d" "/p" "" = .ok .NoAuthGranted :=
  ⟨rfl, rfl, rfl, rfl⟩

/-- C2, amended: when several `hostPattern`s match the domain, the
decision engine evaluates the request against the *last* matching
`HostPolicy` in the document's order (each match of the scan overwrites
the cached tuple), and all subsequent steps of `noRoute` use that
host's rule set. -/
theorem matchHost_selects_last_match (m : RMatch) (domain : String)
    (pre : List String) (h : String) (post : List String)
    (hm : m h domain = true) (hpost : ∀ x ∈ post, m x domain = false) :
    (matchHost m emptyCaches domain (pre ++ h :: post)).1 = (h, true) :=
  matchHost_last m emptyCaches domain pre h post rfl hm hpost

theorem matchHost_selects_last_match_witness :
    (matchHost mC2 emptyCaches "d" (["hostA"] ++ "hostB" :: [])).1 = ("hostB", true) :=
  matchHost_selects_last_match mC2 "d" ["hostA"] "hostB" [] (by decide) (by decide)

/-! ## Claim C4 -/

/-- C4: a bearer token whose `allowed_paths` compiles to the empty list
(declared empty, or every pattern dropped by `regexp.Compile`) is
excluded from the host's rule set entirely: on a bearer-guarded path
(no no-auth or basic-auth pattern matches), presenting that token
yields `BearerTokenUnknown` — never `BearerPathDenied`. -/
theorem empty_allowed_paths_token_unknown (compileOk : String → Bool)
    (doc : List HostSettingsV) (m : RMatch) (domain path host T : String)
    (hsel : (matchHost m emptyCaches domain (buildHolder compileOk doc).getHosts).1
      = (host, true))
    (hEmpty : ∀ hs ∈ doc, hs.host = host → ∀ bt ∈ hs.settings.bearerTokens,
        bt.token = T → bt.rawAllowedPaths.filter compileOk = [])
    (hnoauth : ∀ pat ∈ (buildHolder compileOk doc).getNoAuthPaths host, m pat path = false)
    (hbasic : ∀ entry ∈ (buildHolder compileOk doc).getBasicAuthConf host,
        m entry.1 path = false) :
    noRouteV m (buildHolder compileOk doc) emptyCaches domain path ("Bearer " ++ T)
      = .ok .BearerTokenUnknown := by
  set holder := buildHolder compileOk doc with hholder
  have hM : matchHost m emptyCaches domain holder.getHosts
      = ((host, true), (matchHost m emptyCaches domain holder.getHosts).2) :=
    eq_pair_of_fst _ _ hsel
  obtain ⟨_, fB, _, _, fN⟩ := matchHost_get m emptyCaches domain holder.getHosts host true _ hM
  set c2 := (matchHost m emptyCaches domain holder.getHosts).2 with hc2
  have hcontainsN : alContains c2.matchNoAuthPathCache (domain ++ "\t" ++ path) = false := by
    rw [fN]; rfl
  have hAnyN : (holder.getNoAuthPaths host).any (fun pat => m pat path) = false :=
    List.any_eq_false.mpr (fun pat hp => by rw [hnoauth pat hp]; simp)
  have hvalN : (matchNoAuthPath m c2 domain path (holder.getNoAuthPaths host)).1 = false := by
    rw [matchNoAuthPath_miss m c2 domain path _ hcontainsN]; exact hAnyN
  have hN : matchNoAuthPath m c2 domain path (holder.getNoAuthPaths host)
      = (false, (matchNoAuthPath m c2 domain path (holder.getNoAuthPaths host)).2) :=
    eq_pair_of_fst _ _ hvalN
  obtain ⟨_, _, gB, _, _⟩ :=
    matchNoAuthPath_get m c2 domain path (holder.getNoAuthPaths host) false _ hN
  set c3 := (matchNoAuthPath m c2 domain path (holder.getNoAuthPaths host)).2 with hc3
  have hcontainsB : alContains c3.matchBasicAuthPathCache (domain ++ "\t" ++ path) = false := by
    rw [gB, fB]; rfl
  have hAnyB : (holder.getBasicAuthConf host).any (fun entry => m entry.1 path) = false :=
    List.any_eq_false.mpr (fun entry he => by rw [hbasic entry he]; simp)
  have hvalB : (matchBasicAuthPath m c3 domain path (holder.getBasicAuthConf host)).1 = false := by
    rw [matchBasicAuthPath_miss m c3 domain path _ hcontainsB]; exact hAnyB
  have hB : matchBasicAuthPath m c3 domain path (holder.getBasicAuthConf host)
      = (false, (matchBasicAuthPath m c3 domain path (holder.getBasicAuthConf host)).2) :=
    eq_pair_of_fst _ _ hvalB
  have hHas : holder.hasToken host T = false :=
    buildHolder_hasToken_false compileOk doc host T hEmpty
  unfold noRouteV noRoute
  rw [hM]
  simp only [if_true]
  rw [hN]
  simp only [Bool.false_eq_true, if_false]
  rw [hB]
  simp only [Bool.false_eq_true, if_false]
  rw [if_neg (bearer_header_length_pos T)]
  rcases bearerHeaderMatch_bearer T with hbm | hbm
  · rw [hbm]
    rfl
  · rw [hbm]
    simp only [hHas, Bool.not_false, if_true]
    rfl

def compileOkC4 : String → Bool := fun p => p != "("

def docC4 : List HostSettingsV :=
  [{ host := "^h$",
     settings :=
       { bearerTokens :=
           [{ token := "TOKEN1", rawAllowedPaths := ["("] },
            { token := "TOKEN2", rawAllowedPaths := ["^/allowed$"] }],
         basicAuths := [], noAuths := [] } }]

def mC4 : RMatch := fun pat subj =>
  (pat == "^h$" && subj == "h") || (pat == "^/allowed$" && subj == "/allowed")

theorem empty_allowed_paths_token_unknown_witness :
    noRouteV mC4 (buildHolder compileOkC4 docC4) emptyCaches "h" "/q" ("Bearer " ++ "TOKEN1")
      = .ok .BearerTokenUnknown :=
  empty_allowed_paths_token_unknown compileOkC4 docC4 mC4 "h" "/q" "^h$" "TOKEN1"
    (by decide) (by decide) (by decide) (by decide)

/-! ## Claim C5 -/

def mC5 : RMatch := fun pat subj =>
  (pat == "^d$" && subj == "d") || (pat == "^/p$" && subj == "/p")

def holderC5 : Holder :=
  { hosts := ["^d$"],
    bearerTokenAllowedPaths := [("^d$", [("TOKEN1", ["^/p$"])])],
    bearerTokens := [("^d$", ["TOKEN1"])],
    basicAuthPaths := [("^d$", [("^/p$", [("user1", "password1")])])],
    noAuthPaths := [("^d$", ["^/p$"])] }

/-- C5, counterexample: a path that matches a `basicAuthRules` key *and*
a bearer token's `allowedPaths` *and* the host's `noAuthPaths` is
resolved by the no-auth step (`NoAuthGranted`) — not by the basic-auth
branch as the claim states. -/
theorem basic_precedence_counterexample :
    (matchHost mC5 emptyCaches "d" holderC5.getHosts).1 = ("^d$", true) ∧
      (holderC5.getBasicAuthConf "^d$").any (fun entry => mC5 entry.1 "/p") = true ∧
      holderC5.hasToken "^d$" "TOKEN1" = true ∧
      (holderC5.getAllowedPaths "^d$" "TOKEN1").any (fun pat => mC5 pat "/p") = true ∧
      noRouteV mC5 holderC5 emptyCaches "d" "/p" "Bearer TOKEN1" = .ok .NoAuthGranted :=
  ⟨rfl, rfl, rfl, rfl, rfl⟩

/-- C5, amended: for every matched host and every path that matches both
a `basicAuthRules` key and some bearer token's `allowedPaths` *and does
not match the host's `noAuthPaths`*, the request is resolved inside the
basic-auth branch: the outcome is `BasicAuthGranted`,
`BasicAuthRequired`, or the in-branch runtime fault of C1 — never a
bearer-branch verdict, regardless of any Bearer header present. -/
theorem basic_branch_decides_when_not_noauth (m : RMatch) (holder : Holder)
    (domain path authHeader host : String)
    (hsel : (matchHost m emptyCaches domain holder.getHosts).1 = (host, true))
    (hnoauth : ∀ pat ∈ holder.getNoAuthPaths host, m pat path = false)
    (hbasic : (holder.getBasicAuthConf host).any (fun entry => m entry.1 path) = true)
    (_hbearer : ∃ tok, holder.hasToken host tok = true
        ∧ (holder.getAllowedPaths host tok).any (fun pat => m pat path) = true) :
    noRouteV m holder emptyCaches domain path authHeader = .error ()
      ∨ noRouteV m holder emptyCaches domain path authHeader = .ok .BasicAuthGranted
      ∨ noRouteV m holder emptyCaches domain path authHeader = .ok .BasicAuthRequired := by
  have hM : matchHost m emptyCaches domain holder.getHosts
      = ((host, true), (matchHost m emptyCaches domain holder.getHosts).2) :=
    eq_pair_of_fst _ _ hsel
  obtain ⟨_, fB, _, _, fN⟩ := matchHost_get m emptyCaches domain holder.getHosts host true _ hM
  set c2 := (matchHost m emptyCaches domain holder.getHosts).2 with hc2
  have hcontainsN : alContains c2.matchNoAuthPathCache (domain ++ "\t" ++ path) = false := by
    rw [fN]; rfl
  have hAnyN : (holder.getNoAuthPaths host).any (fun pat => m pat path) = false :=
    List.any_eq_false.mpr (fun pat hp => by rw [hnoauth pat hp]; simp)
  have hvalN : (matchNoAuthPath m c2 domain path (holder.getNoAuthPaths host)).1 = false := by
    rw [matchNoAuthPath_miss m c2 domain path _ hcontainsN]; exact hAnyN
  have hN : matchNoAuthPath m c2 domain path (holder.getNoAuthPaths host)
      = (false, (matchNoAuthPath m c2 domain path (holder.getNoAuthPaths host)).2) :=
    eq_pair_of_fst _ _ hvalN
  obtain ⟨_, _, gB, _, _⟩ :=
    matchNoAuthPath_get m c2 domain path (holder.getNoAuthPaths host) false _ hN
  set c3 := (matchNoAuthPath m c2 domain path (holder.getNoAuthPaths host)).2 with hc3
  have hcontainsB : alContains c3.matchBasicAuthPathCache (domain ++ "\t" ++ path) = false := by
    rw [gB, fB]; rfl
  have hvalB : (matchBasicAuthPath m c3 domain path (holder.getBasicAuthConf host)).1 = true := by
    rw [matchBasicAuthPath_miss m c3 domain path _ hcontainsB]; exact hbasic
  have hB : matchBasicAuthPath m c3 domain path (holder.getBasicAuthConf host)
      = (true, (matchBasicAuthPath m c3 domain path (holder.getBasicAuthConf host)).2) :=
    eq_pair_of_fst _ _ hvalB
  set c4 := (matchBasicAuthPath m c3 domain path (holder.getBasicAuthConf host)).2 with hc4
  unfold noRouteV noRoute
  rw [hM]
  simp only [if_true]
  rw [hN]
  simp only [Bool.false_eq_true, if_false]
  rw [hB]
  simp only [if_true]
  rcases hV : verifyBasicAuth m c4 domain path authHeader (holder.getBasicAuthConf host)
    with e | ⟨b, c5⟩
  · cases e
    left
    rfl
  · cases b
    · right; right
      rfl
    · right; left
      rfl

def mC5w : RMatch := fun pat subj =>
  (pat == "^d$" && subj == "d") || (pat == "^/m$" && subj == "/m")

def holderC5w : Holder :=
  { hosts := ["^d$"],
    bearerTokenAllowedPaths := [("^d$", [("TOKEN1", ["^/m$"])])],
    bearerTokens := [("^d$", ["TOKEN1"])],
    basicAuthPaths := [("^d$", [("^/m$", [("user1", "password1")])])],
    noAuthPaths := [("^d$", ["^/open$"])] }

theorem basic_branch_decides_when_not_noauth_witness :
    noRouteV mC5w holderC5w emptyCaches "d" "/m" "Bearer TOKEN1" = .error ()
      ∨ noRouteV mC5w holderC5w emptyCaches "d" "/m" "Bearer TOKEN1" = .ok .BasicAuthGranted
      ∨ noRouteV mC5w holderC5w emptyCaches "d" "/m" "Bearer TOKEN1" = .ok .BasicAuthRequired :=
  basic_branch_decides_when_not_noauth mC5w holderC5w "d" "/m" "Bearer TOKEN1" "^d$"
    (by decide) (by decide) (by decide) ⟨"TOKEN1", by decide, by decide⟩

end AmbassadorAuth
